import Mathlib

/-!
# slg_programmer: the I2C programming protocol of `src/main.c`

A shallow embedding of `read_slg`, `write_slg`, `erase_slg` and of the operation
dispatch of `main`.  Machine integers are natural numbers reduced modulo `2^8`
where the source stores them in a `uint8_t`.  The outside world is explicit:

* the I2C adapter is a response sequence `env : Nat → IoctlResult`, `env n` being
  what the `n`-th `ioctl(i2c_bus, I2C_RDWR, ...)` call returns;
* the hex file is a `HexFile`, the outcome of `open`/`fstat`/`mmap`;
* everything the program does to the world (console output, bus transactions,
  sleeps, waits for the operator) is recorded, in program order, as a list of `Event`s.
-/

namespace SlgProgrammer

/-! ## Constants and data -/

/-- Constant `NVM_CONFIG` (main.c:16). -/
def NVM_CONFIG : Nat := 0x02

/-- Constant `EEPROM_CONFIG` (main.c:17). -/
def EEPROM_CONFIG : Nat := 0x03

/-- Flag `I2C_M_RD` of `linux/i2c.h`: the message is a read. -/
def I2C_M_RD : Nat := 0x0001

/-- One `struct i2c_msg`: `buf` holds the bytes sent by a write message (it is empty
for a read message, whose buffer content before the call is indeterminate) and `len`
is the `.len` field. -/
structure i2c_msg where
  addr : Nat
  flags : Nat
  buf : List Nat
  len : Nat
deriving DecidableEq, Repr

/-- Outcome of one `ioctl(i2c_bus, I2C_RDWR, &ioctl_data)` call: the return value, the
`errno` it leaves, and the bytes the adapter stored in the read buffer. -/
structure IoctlResult where
  ret : Int
  errno : Nat
  data : List Nat
deriving DecidableEq, Repr

/-- The `printf` calls of the program, one constructor per format string, with the
values of its arguments.  `error_ioctl` is
`"Error: ioctl returned %d. Reason: %s (errno=%d)\n"`: its arguments are `ret`,
`strerror(errno)` and `errno`.  The last seven are those of the option handling of
`main` and of `print_usage`: `error_target` is
`"Error: target must be one of NVM or EEPROM\n"`, `error_id` is
`"Error: id must be in the range 0-15\n"`, `error_without_filename` is
`"Error: -%c without filename\n"`, `error_unknown_arg` is `"Error: Unknown arg %c\n"`,
`error_missing_bus` is `"Error: Missing i2c bus\n"`, `error_open_bus` is
`"Error: Failed to open i2c bus\n"` and `usage` is the usage line with `argv[0]`. -/
inductive Printf where
  | starting_read
  | reading_hex
  | starting_write
  | starting_erase
  | error_open
  | error_fstat
  | error_mmap
  | error_ioctl (ret : Int) (errno : Nat)
  | page_label (v : Nat)
  | data_byte (b : Nat)
  | newline
  | erasing (v : Nat)
  | ok
  | waiting_for_powercycle
  | error_target
  | error_id
  | error_without_filename (optopt : Nat)
  | error_unknown_arg (optopt : Nat)
  | error_missing_bus
  | error_open_bus
  | usage (a : List Nat)
deriving DecidableEq, Repr

/-- Observable actions of the program, recorded in program order.  `open_i2c name` is
the call `open(i2c_name, O_RDWR)` of main.c:92, with the string held in `i2c_name`. -/
inductive Event where
  | printf (p : Printf)
  | ioctl (msgs : List i2c_msg)
  | usleep (usec : Nat)
  | getchar
  | open_i2c (i2c_name : List Nat)
deriving DecidableEq, Repr

/-- Outcome of `open`, `fstat` and `mmap` on the hex file (main.c:179-195).  In
`mapped bytes` the file content is `bytes` and `st_size = bytes.length` (`mmap`
refuses a length of 0, so an empty file ends in `mmap_failed`). -/
inductive HexFile where
  | open_failed
  | fstat_failed
  | mmap_failed
  | mapped (bytes : List Nat)
deriving DecidableEq, Repr

/-- The response sequence seen after `k` further `ioctl` calls have been made. -/
def shift (env : Nat → IoctlResult) (k : Nat) : Nat → IoctlResult :=
  fun n => env (n + k)

/-- The bus transactions of a trace: the message arrays of its `ioctl` calls. -/
def transactions : List Event → List (List i2c_msg)
  | [] => []
  | Event.ioctl msgs :: rest => msgs :: transactions rest
  | _ :: rest => transactions rest

/-- The bus-side events of a trace: `ioctl` calls and `usleep` delays, console
output and operator waits dropped. -/
def bus_events : List Event → List Event
  | [] => []
  | Event.ioctl msgs :: rest => Event.ioctl msgs :: bus_events rest
  | Event.usleep us :: rest => Event.usleep us :: bus_events rest
  | _ :: rest => bus_events rest

/-- The console output of a trace. -/
def console : List Event → List Printf
  | [] => []
  | Event.printf p :: rest => p :: console rest
  | _ :: rest => console rest

/-- The error lines of a console output: the `"Error: ..."` format strings. -/
def error_lines : List Printf → List Printf
  | [] => []
  | Printf.error_open :: rest => Printf.error_open :: error_lines rest
  | Printf.error_fstat :: rest => Printf.error_fstat :: error_lines rest
  | Printf.error_mmap :: rest => Printf.error_mmap :: error_lines rest
  | Printf.error_ioctl r e :: rest => Printf.error_ioctl r e :: error_lines rest
  | Printf.error_target :: rest => Printf.error_target :: error_lines rest
  | Printf.error_id :: rest => Printf.error_id :: error_lines rest
  | Printf.error_without_filename c :: rest =>
    Printf.error_without_filename c :: error_lines rest
  | Printf.error_unknown_arg c :: rest => Printf.error_unknown_arg c :: error_lines rest
  | Printf.error_missing_bus :: rest => Printf.error_missing_bus :: error_lines rest
  | Printf.error_open_bus :: rest => Printf.error_open_bus :: error_lines rest
  | _ :: rest => error_lines rest

/-! ## Control codes -/

/-- The `control_code` of `read_slg` (main.c:131-132) and `write_slg` (main.c:214-215):
`(i2c_slave_addr << 3) | (target_nvm ? NVM_CONFIG : EEPROM_CONFIG)` stored in a
`uint8_t`. -/
def rw_control_code (i2c_slave_addr : Nat) (target_nvm : Bool) : Nat :=
  ((i2c_slave_addr <<< 3) ||| (if target_nvm then NVM_CONFIG else EEPROM_CONFIG)) % 256

/-- The `control_code` of `erase_slg` (main.c:261): `i2c_slave_addr << 3` stored in a
`uint8_t`. -/
def erase_control_code (i2c_slave_addr : Nat) : Nat :=
  (i2c_slave_addr <<< 3) % 256

/-! ## read_slg -/

/-- The two messages of one page read (main.c:135-151): a write of `i2c_cmd`
(`{ page << 4 }` as `uint8_t`) and a read of the 16 bytes of `i2c_page_data`. -/
def read_msgs (control_code page : Nat) : List i2c_msg :=
  [ { addr := control_code, flags := 0, buf := [(page <<< 4) % 256], len := 1 },
    { addr := control_code, flags := I2C_M_RD, buf := [], len := 16 } ]

/-- The row printed after a successful page read (main.c:165-169). -/
def read_row (page : Nat) (data : List Nat) : List Event :=
  Event.printf (Printf.page_label (page <<< 4))
    :: (List.range 16).map (fun i => Event.printf (Printf.data_byte (data.getD i 0 % 256)))
    ++ [Event.printf Printf.newline]

/-- The page loop of `read_slg` (main.c:134-170) over the pages still to do; `env 0`
answers the first `ioctl` issued. -/
def read_pages (control_code : Nat) : (Nat → IoctlResult) → List Nat → Bool × List Event
  | _, [] => (true, [])
  | env, page :: rest =>
    let r := env 0
    if r.ret < 0 then
      (false, [Event.ioctl (read_msgs control_code page),
               Event.printf (Printf.error_ioctl r.ret r.errno)])
    else
      let tl := read_pages control_code (shift env 1) rest
      (tl.1, Event.ioctl (read_msgs control_code page) :: read_row page r.data ++ tl.2)

/-- Function `read_slg` (main.c:127-173). -/
def read_slg (env : Nat → IoctlResult) (i2c_slave_addr : Nat) (target_nvm : Bool) :
    Bool × List Event :=
  let tl := read_pages (rw_control_code i2c_slave_addr target_nvm) env (List.range 16)
  (tl.1, Event.printf Printf.starting_read :: tl.2)

/-! ## write_slg: decoding the hex image -/

/-- The byte `buf[ptr]` of the mapping of a file with content `bytes`, as the
`unsigned char` that `%c` prints.  Past the end of the file the mapping reads as
zero: `mmap` zero-fills the rest of the last page, and every index the decoder
reads is at most 700, inside the first page of any non-empty file. -/
def buf_at (bytes : List Nat) (ptr : Nat) : Nat :=
  bytes.getD ptr 0 % 256

/-- The C string left in `tmp` by `snprintf(tmp, 3, "%c%c", c1, c2)`: both characters,
cut at the first NUL. -/
def snprintf_cc (c1 c2 : Nat) : List Nat :=
  [c1, c2].takeWhile (fun c => c != 0)

/-- Predicate `isspace` of the C locale. -/
def isspace (c : Nat) : Bool :=
  c == 32 || (9 ≤ c && c ≤ 13)

/-- Value of a base-16 digit character as `strtol` reads it, `none` for any other
character. -/
def hexval (c : Nat) : Option Nat :=
  if 48 ≤ c ∧ c ≤ 57 then some (c - 48)
  else if 97 ≤ c ∧ c ≤ 102 then some (c - 87)
  else if 65 ≤ c ∧ c ≤ 70 then some (c - 55)
  else none

/-- The digit loop of `strtol`: accumulates base-16 digits up to the first character
that is not one. -/
def strtol_digits : Nat → List Nat → Nat
  | acc, [] => acc
  | acc, c :: cs =>
    match hexval c with
    | some d => strtol_digits (acc * 16 + d) cs
    | none => acc

/-- Constant `LONG_MAX` of a 64-bit `long`. -/
def LONG_MAX : Int := 2 ^ 63 - 1

/-- Library call `strtol(s, NULL, 16)` on the C string `s`: leading white space is
skipped, then an optional sign, then an optional `0x`/`0X` (only when a digit
follows), then the longest run of base-16 digits; no digits give 0, and the value is
clamped to the range of `long`. -/
def strtol16 (s : List Nat) : Int :=
  let s1 := s.dropWhile isspace
  let neg := s1.head? == some 45
  let s2 := if s1.head? == some 45 || s1.head? == some 43 then s1.tail else s1
  let s3 :=
    match s2 with
    | 48 :: x :: d :: r =>
      if (x == 120 || x == 88) && (hexval d).isSome then d :: r else s2
    | _ => s2
  let v : Int := (strtol_digits 0 s3 : Nat)
  if neg then (if v > LONG_MAX + 1 then -(LONG_MAX + 1) else -v)
  else (if v > LONG_MAX then LONG_MAX else v)

/-- One iteration of the decode loop (main.c:200-205): the byte stored in
`pages[page][offset]`, i.e. the `strtol` value converted to `uint8_t`. -/
def decode_byte (bytes : List Nat) (page offset : Nat) : Nat :=
  let ptr := page * 44 + 9 + 2 * offset
  let tmp := snprintf_cc (buf_at bytes ptr) (buf_at bytes (ptr + 1))
  (strtol16 tmp % 256).toNat

/-- The decode loop (main.c:197-207): the array `pages[16][16]`, row `page`, column
`offset`. -/
def decode_pages (bytes : List Nat) : List (List Nat) :=
  (List.range 16).map (fun page => (List.range 16).map (fun offset => decode_byte bytes page offset))

/-! ## write_slg: the write loop -/

/-- The array element `pages[page][i]`. -/
def page_byte (pages : List (List Nat)) (page i : Nat) : Nat :=
  (pages.getD page []).getD i 0

/-- The 17-byte `buf` of one page write (main.c:217-222): `buf[0] = page << 4` as
`uint8_t`, `buf[i + 1] = pages[page][i]`. -/
def write_buf (pages : List (List Nat)) (page : Nat) : List Nat :=
  (page <<< 4) % 256 :: (List.range 16).map (fun i => page_byte pages page i)

/-- The single message of one page write (main.c:224-231). -/
def write_msgs (control_code : Nat) (pages : List (List Nat)) (page : Nat) : List i2c_msg :=
  [ { addr := control_code, flags := 0, buf := write_buf pages page, len := 17 } ]

/-- The row printed after a successful page write (main.c:245-249). -/
def write_row (pages : List (List Nat)) (page : Nat) : List Event :=
  Event.printf (Printf.page_label (page <<< 4))
    :: (List.range 16).map (fun offset => Event.printf (Printf.data_byte (page_byte pages page offset)))
    ++ [Event.printf Printf.newline]

/-- The page loop of `write_slg` (main.c:216-252) over the pages still to do. -/
def write_pages (control_code : Nat) (pages : List (List Nat)) :
    (Nat → IoctlResult) → List Nat → Bool × List Event
  | _, [] => (true, [])
  | env, page :: rest =>
    let r := env 0
    if r.ret < 0 then
      (false, [Event.ioctl (write_msgs control_code pages page),
               Event.printf (Printf.error_ioctl r.ret r.errno)])
    else
      let tl := write_pages control_code pages (shift env 1) rest
      (tl.1, Event.ioctl (write_msgs control_code pages page)
               :: write_row pages page ++ Event.usleep 20000 :: tl.2)

/-- Function `write_slg` (main.c:175-255). -/
def write_slg (env : Nat → IoctlResult) (i2c_slave_addr : Nat) (file : HexFile)
    (target_nvm : Bool) : Bool × List Event :=
  match file with
  | HexFile.open_failed =>
    (false, [Event.printf Printf.reading_hex, Event.printf Printf.error_open])
  | HexFile.fstat_failed =>
    (false, [Event.printf Printf.reading_hex, Event.printf Printf.error_fstat])
  | HexFile.mmap_failed =>
    (false, [Event.printf Printf.reading_hex, Event.printf Printf.error_mmap])
  | HexFile.mapped bytes =>
    let pages := decode_pages bytes
    let tl := write_pages (rw_control_code i2c_slave_addr target_nvm) pages env (List.range 16)
    (tl.1, Event.printf Printf.reading_hex :: Event.printf Printf.starting_write :: tl.2)

/-! ## erase_slg -/

/-- The single message of one page erase (main.c:266-275): `i2c_cmd` is
`{ 0xE3, (target_nvm ? 0x80 : 0x90) | page }` as `uint8_t`s. -/
def erase_msgs (control_code : Nat) (target_nvm : Bool) (page : Nat) : List i2c_msg :=
  [ { addr := control_code, flags := 0,
      buf := [0xE3, ((if target_nvm then 0x80 else 0x90) ||| page) % 256], len := 2 } ]

/-- The page loop of `erase_slg` (main.c:263-291) over the pages still to do. -/
def erase_pages (control_code : Nat) (target_nvm : Bool) :
    (Nat → IoctlResult) → List Nat → Bool × List Event
  | _, [] => (true, [])
  | env, page :: rest =>
    let r := env 0
    if r.ret < 0 then
      (false, [Event.printf (Printf.erasing (page <<< 4)),
               Event.ioctl (erase_msgs control_code target_nvm page),
               Event.printf (Printf.error_ioctl r.ret r.errno)])
    else
      let tl := erase_pages control_code target_nvm (shift env 1) rest
      (tl.1, Event.printf (Printf.erasing (page <<< 4))
               :: Event.ioctl (erase_msgs control_code target_nvm page)
               :: Event.usleep 20000 :: Event.printf Printf.ok :: tl.2)

/-- Function `erase_slg` (main.c:257-294). -/
def erase_slg (env : Nat → IoctlResult) (i2c_slave_addr : Nat) (target_nvm : Bool) :
    Bool × List Event :=
  let tl := erase_pages (erase_control_code i2c_slave_addr) target_nvm env (List.range 16)
  (tl.1, Event.printf Printf.starting_erase :: tl.2)

/-! ## The operation dispatch of main -/

/-- The dispatch of `main` once the options are parsed and the bus is open
(main.c:98-119): the exit code and the trace.  Each operation sees the responses
left over by the operations before it. -/
def main_dispatch (env : Nat → IoctlResult) (i2c_slave_addr : Nat)
    (read write erase : Bool) (file : HexFile) (target_nvm : Bool) : Nat × List Event :=
  let run : Bool × List Event :=
    if read then
      read_slg env i2c_slave_addr target_nvm
    else if write then
      let e := erase_slg env i2c_slave_addr target_nvm
      if e.1 then
        let env1 := shift env (transactions e.2).length
        let w := write_slg env1 i2c_slave_addr file target_nvm
        let t1 := e.2 ++ [Event.printf Printf.waiting_for_powercycle, Event.getchar] ++ w.2
        if w.1 then
          let env2 := shift env1 (transactions w.2).length
          let r := read_slg env2 i2c_slave_addr target_nvm
          (r.1, t1 ++ [Event.printf Printf.waiting_for_powercycle, Event.getchar] ++ r.2)
        else (false, t1)
      else (false, e.2)
    else if erase then
      erase_slg env i2c_slave_addr target_nvm
    else (false, [])
  (if run.1 then 0 else 1, run.2)

/-! ## The option handling of main -/

/-- Library call `tolower` of the C locale. -/
def tolower (c : Nat) : Nat :=
  if 65 ≤ c ∧ c ≤ 90 then c + 32 else c

/-- The test `strcasecmp(a, b) == 0`: the strings are equal up to the case of
letters. -/
def strcasecmp_eq (a b : List Nat) : Bool :=
  a.map tolower == b.map tolower

/-- Value of a decimal digit character, `none` for any other character. -/
def decval (c : Nat) : Option Nat :=
  if 48 ≤ c ∧ c ≤ 57 then some (c - 48) else none

/-- The digit loop of `atoi`: accumulates decimal digits up to the first character
that is not one. -/
def atoi_digits : Nat → List Nat → Nat
  | acc, [] => acc
  | acc, c :: cs =>
    match decval c with
    | some d => atoi_digits (acc * 10 + d) cs
    | none => acc

/-- Library call `atoi(s)`, that is `(int) strtol(s, NULL, 10)`: leading white space,
an optional sign, the longest run of decimal digits (none give 0), clamped to the
range of `long` and converted to a 32-bit `int`. -/
def atoi (s : List Nat) : Int :=
  let s1 := s.dropWhile isspace
  let neg := s1.head? == some 45
  let s2 := if s1.head? == some 45 || s1.head? == some 43 then s1.tail else s1
  let v : Int := (atoi_digits 0 s2 : Nat)
  let l : Int :=
    if neg then (if v > LONG_MAX + 1 then -(LONG_MAX + 1) else -v)
    else (if v > LONG_MAX then LONG_MAX else v)
  (l + 2 ^ 31) % 2 ^ 32 - 2 ^ 31

/-- What one call `getopt(argc, argv, ":erw:t:i:")` returns before the end of the
options: an option character with its `optarg`, or `':'` (an option without its
argument) or `'?'` (an unknown option) with `optopt`. -/
inductive GetoptResult where
  | e
  | r
  | w (optarg : List Nat)
  | t (optarg : List Nat)
  | i (optarg : List Nat)
  | missing_argument (optopt : Nat)
  | unknown_option (optopt : Nat)
deriving DecidableEq, Repr

/-- The variables set by the option loop of `main` (main.c:28-32) and the global
`i2c_slave_addr` (main.c:19). -/
structure Options where
  erase : Bool
  read : Bool
  write : Bool
  target_nvm : Bool
  filename : List Nat
  i2c_slave_addr : Nat
deriving DecidableEq, Repr

/-- The initial values (main.c:19, 28-32); `filename` is not initialised by the
source and is read only after `-w` has set it. -/
def initial_options : Options :=
  { erase := false, read := false, write := false, target_nvm := true,
    filename := [], i2c_slave_addr := 0x01 }

/-- The option loop of `main` (main.c:34-81) over the results of the successive
`getopt` calls: the options set, or the output of the error exit (`return 1`).  In
case `'i'` the value of `atoi` is stored in the `uint8_t i2c_slave_addr` and the
stored value is then compared with 0 and 15. -/
def getopt_loop (argv0 : List Nat) : Options → List GetoptResult → Except (List Event) Options
  | o, [] => Except.ok o
  | o, GetoptResult.e :: rest => getopt_loop argv0 { o with erase := true } rest
  | o, GetoptResult.r :: rest => getopt_loop argv0 { o with read := true } rest
  | o, GetoptResult.w optarg :: rest =>
    getopt_loop argv0 { o with write := true, filename := optarg } rest
  | o, GetoptResult.t optarg :: rest =>
    if strcasecmp_eq optarg [110, 118, 109] then
      getopt_loop argv0 { o with target_nvm := true } rest
    else if strcasecmp_eq optarg [101, 101, 112, 114, 111, 109] then
      getopt_loop argv0 { o with target_nvm := false } rest
    else
      Except.error [Event.printf Printf.error_target, Event.printf (Printf.usage argv0)]
  | o, GetoptResult.i optarg :: rest =>
    let i2c_slave_addr : Nat := (atoi optarg % 256).toNat
    if (i2c_slave_addr : Int) < 0 ∨ (i2c_slave_addr : Int) > 15 then
      Except.error [Event.printf Printf.error_id, Event.printf (Printf.usage argv0)]
    else
      getopt_loop argv0 { o with i2c_slave_addr := i2c_slave_addr } rest
  | _, GetoptResult.missing_argument optopt :: _ =>
    Except.error [Event.printf (Printf.error_without_filename optopt),
                  Event.printf (Printf.usage argv0)]
  | _, GetoptResult.unknown_option optopt :: _ =>
    Except.error [Event.printf (Printf.error_unknown_arg optopt),
                  Event.printf (Printf.usage argv0)]

/-- The decimal text that `%d` prints for an `int`. -/
def print_int (n : Int) : List Nat :=
  if n < 0 then 45 :: (Nat.toDigits 10 n.natAbs).map Char.toNat
  else (Nat.toDigits 10 n.toNat).map Char.toNat

/-- The string left in `i2c_name` by `snprintf(i2c_name, 15, "/dev/i2c-%d", i2c_num)`
(main.c:91): the text `/dev/i2c-` followed by the number, cut to the 14 characters
that fit before the terminating NUL. -/
def i2c_name (i2c_num : Int) : List Nat :=
  ([47, 100, 101, 118, 47, 105, 50, 99, 45] ++ print_int i2c_num).take 14

/-- Function `main` (main.c:26-120): the exit code and the trace.  The inputs are
`argv[0]`, the results of the `getopt` calls, the arguments left from `optind` on,
whether `open` of the bus device succeeds, the outcome of mapping each hex file,
and the responses of the adapter. -/
def main (argv0 : List Nat) (opts : List GetoptResult) (args : List (List Nat))
    (bus_opens : Bool) (fs : List Nat → HexFile) (env : Nat → IoctlResult) :
    Nat × List Event :=
  match getopt_loop argv0 initial_options opts with
  | Except.error out => (1, out)
  | Except.ok o =>
    match args with
    | [] => (1, [Event.printf Printf.error_missing_bus, Event.printf (Printf.usage argv0)])
    | arg :: _ =>
      let i2c_num := atoi arg
      if bus_opens then
        let d := main_dispatch env o.i2c_slave_addr o.read o.write o.erase (fs o.filename)
          o.target_nvm
        (d.1, Event.open_i2c (i2c_name i2c_num) :: d.2)
      else
        (1, [Event.open_i2c (i2c_name i2c_num), Event.printf Printf.error_open_bus])

/-! ## Hex text, as the image format writes it -/

/-- The ASCII code of the upper-case hexadecimal digit of value `d` (`0`-`9`, `A`-`F`). -/
def hex_digit_upper (d : Nat) : Nat :=
  if d < 10 then 48 + d else 55 + d

/-- The ASCII code of the lower-case hexadecimal digit of value `d` (`0`-`9`, `a`-`f`). -/
def hex_digit_lower (d : Nat) : Nat :=
  if d < 10 then 48 + d else 87 + d

/-- Character `c` is a hexadecimal digit of value `d`, in either case. -/
def is_hex_digit (c d : Nat) : Prop :=
  d < 16 ∧ (c = hex_digit_upper d ∨ c = hex_digit_lower d)

instance (c d : Nat) : Decidable (is_hex_digit c d) := by
  unfold is_hex_digit; infer_instance

/-- The field of page `page`, offset `offset` of the mapped image holds the
two-hex-digit text of byte `b`: high digit first, at `page * 44 + 9 + 2 * offset`. -/
def field_holds (bytes : List Nat) (page offset b : Nat) : Prop :=
  is_hex_digit (buf_at bytes (page * 44 + 9 + 2 * offset)) (b / 16) ∧
  is_hex_digit (buf_at bytes (page * 44 + 9 + 2 * offset + 1)) (b % 16)

instance (bytes : List Nat) (page offset b : Nat) :
    Decidable (field_holds bytes page offset b) := by
  unfold field_holds; infer_instance

/-! ## Progress labels of the console -/

/-- The page labels of a console output: the values printed by `"%02X:  "`, the
label that opens the row of a page read or written. -/
def page_labels : List Printf → List Nat
  | [] => []
  | Printf.page_label v :: rest => v :: page_labels rest
  | _ :: rest => page_labels rest

/-- The values printed by `"Erasing %02X: "` in a console output. -/
def erasing_labels : List Printf → List Nat
  | [] => []
  | Printf.erasing v :: rest => v :: erasing_labels rest
  | _ :: rest => erasing_labels rest

/-! ## Synthetic images -/

/-- The two-character text of byte `b` as `"%02X"` prints it: high digit, low digit. -/
def hex_text (b : Nat) : List Nat :=
  [hex_digit_upper (b / 16 % 16), hex_digit_upper (b % 16)]

/-- A synthetic hex image holding matrix `M`: 16 records of 44 characters, each a
9-character header (`:10000000`), the 32 characters of the 16 data bytes of the
page, and 3 trailing characters (`00` and a line feed). -/
def synthetic_image (M : Nat → Nat → Nat) : List Nat :=
  (List.range 16).flatMap (fun p =>
    [58, 49, 48, 48, 48, 48, 48, 48, 48]
      ++ (List.range 16).flatMap (fun o => hex_text (M p o))
      ++ [48, 48, 10])

/-- A test matrix with a different byte at every position: `M[p][o] = 16 * p + o`. -/
def ramp : Nat → Nat → Nat := fun p o => 16 * p + o

/-- A 704-character image whose fields all read `00`, except the field of page 0,
offset 0, which holds the two characters `c1`, `c2`. -/
def image_with_field (c1 c2 : Nat) : List Nat :=
  List.replicate 9 48 ++ [c1, c2] ++ List.replicate 693 48

/-! ## Derived views of the commands -/

/-- The second byte of `i2c_cmd` in the erase message of a page (main.c:266), read
off `erase_msgs`. -/
def erase_cmd_byte (target_nvm : Bool) (page : Nat) : Nat :=
  ((erase_msgs 0 target_nvm page).flatMap (fun m => m.buf)).getD 1 0

/-- The three ways the program addresses a device: the erase command, and the
read/write access to the NVM or to the EEPROM region. -/
inductive AccessKind where
  | erase
  | rw_nvm
  | rw_eeprom
deriving DecidableEq, Repr

/-- The bus address (`control_code`) the program uses for slave id `s` and an access
kind. -/
def bus_address (s : Nat) : AccessKind → Nat
  | AccessKind.erase => erase_control_code s
  | AccessKind.rw_nvm => rw_control_code s true
  | AccessKind.rw_eeprom => rw_control_code s false

/-! ## Test doubles -/

/-- A successful `ioctl` result (the number of messages transferred is not used by
the program; any non-negative value is success). -/
def ioctl_ok : IoctlResult := { ret := 1, errno := 0, data := [] }

/-- A failed `ioctl` result: `-1` with `errno = EIO`. -/
def ioctl_eio : IoctlResult := { ret := -1, errno := 5, data := [] }

/-- An adapter that succeeds on every call. -/
def env_ok : Nat → IoctlResult := fun _ => ioctl_ok

/-- An adapter that succeeds on every call but call `k`, which fails. -/
def env_fail_at (k : Nat) : Nat → IoctlResult :=
  fun n => if n = k then ioctl_eio else ioctl_ok

/-! ## Traces: general facts -/

theorem transactions_append (a b : List Event) :
    transactions (a ++ b) = transactions a ++ transactions b := by
  induction a with
  | nil => rfl
  | cons e a ih => cases e <;> simp [transactions, ih]

theorem bus_events_append (a b : List Event) :
    bus_events (a ++ b) = bus_events a ++ bus_events b := by
  induction a with
  | nil => rfl
  | cons e a ih => cases e <;> simp [bus_events, ih]

theorem console_append (a b : List Event) :
    console (a ++ b) = console a ++ console b := by
  induction a with
  | nil => rfl
  | cons e a ih => cases e <;> simp [console, ih]

theorem transactions_map_printf (f : Nat → Printf) (l : List Nat) :
    transactions (l.map (fun i => Event.printf (f i))) = [] := by
  induction l with
  | nil => rfl
  | cons a l ih => simpa [transactions] using ih

theorem bus_events_map_printf (f : Nat → Printf) (l : List Nat) :
    bus_events (l.map (fun i => Event.printf (f i))) = [] := by
  induction l with
  | nil => rfl
  | cons a l ih => simpa [bus_events] using ih

theorem transactions_read_row (page : Nat) (data : List Nat) :
    transactions (read_row page data) = [] := by
  simp [read_row, transactions, transactions_append, transactions_map_printf]

theorem bus_events_read_row (page : Nat) (data : List Nat) :
    bus_events (read_row page data) = [] := by
  simp [read_row, bus_events, bus_events_append, bus_events_map_printf]

theorem transactions_write_row (pages : List (List Nat)) (page : Nat) :
    transactions (write_row pages page) = [] := by
  simp [write_row, transactions, transactions_append, transactions_map_printf]

theorem bus_events_write_row (pages : List (List Nat)) (page : Nat) :
    bus_events (write_row pages page) = [] := by
  simp [write_row, bus_events, bus_events_append, bus_events_map_printf]

/-! ## The page loops: every message carries the control code -/

theorem read_pages_addr (cc : Nat) (pages : List Nat) :
    ∀ env : Nat → IoctlResult, ∀ msgs ∈ transactions (read_pages cc env pages).2,
      ∀ m ∈ msgs, m.addr = cc := by
  induction pages with
  | nil => intro env msgs h; simp [read_pages, transactions] at h
  | cons page rest ih =>
    intro env msgs h m hm
    unfold read_pages at h
    by_cases hr : (env 0).ret < 0
    · simp [hr, transactions] at h
      subst h
      simp [read_msgs] at hm
      rcases hm with rfl | rfl <;> rfl
    · simp [hr, transactions, transactions_append, transactions_read_row] at h
      rcases h with rfl | h
      · simp [read_msgs] at hm
        rcases hm with rfl | rfl <;> rfl
      · exact ih _ msgs h m hm

theorem write_pages_addr (cc : Nat) (pg : List (List Nat)) (pages : List Nat) :
    ∀ env : Nat → IoctlResult, ∀ msgs ∈ transactions (write_pages cc pg env pages).2,
      ∀ m ∈ msgs, m.addr = cc := by
  induction pages with
  | nil => intro env msgs h; simp [write_pages, transactions] at h
  | cons page rest ih =>
    intro env msgs h m hm
    unfold write_pages at h
    by_cases hr : (env 0).ret < 0
    · simp [hr, transactions] at h
      subst h
      simp [write_msgs] at hm
      subst hm; rfl
    · simp [hr, transactions, transactions_append, transactions_write_row] at h
      rcases h with rfl | h
      · simp [write_msgs] at hm
        subst hm; rfl
      · exact ih _ msgs h m hm

theorem rw_control_code_eq (s : Nat) (hs : s < 16) (target_nvm : Bool) :
    rw_control_code s target_nvm = (s <<< 3) ||| (if target_nvm then 0b10 else 0b11) ∧
    rw_control_code s target_nvm < 128 := by
  interval_cases s <;> cases target_nvm <;> decide

/-- C1: for every slave id `s` in 0..15 and either region, every message of every
transaction issued by `read_slg` and by `write_slg` is addressed to
`(s << 3) | regionBits`, with `regionBits = 0b10` for NVM and `0b11` for EEPROM; that
address is below 128 and the NVM and EEPROM addresses of the same `s` differ.  A read
always issues at least one transaction, and so does a write of a mapped file. -/
theorem control_code_read_write (s : Nat) (hs : s < 16) (target_nvm : Bool)
    (env : Nat → IoctlResult) (file : HexFile) :
    (∀ msgs ∈ transactions (read_slg env s target_nvm).2, ∀ m ∈ msgs,
        m.addr = (s <<< 3) ||| (if target_nvm then 0b10 else 0b11)) ∧
    (∀ msgs ∈ transactions (write_slg env s file target_nvm).2, ∀ m ∈ msgs,
        m.addr = (s <<< 3) ||| (if target_nvm then 0b10 else 0b11)) ∧
    transactions (read_slg env s target_nvm).2 ≠ [] ∧
    (∀ bytes, file = HexFile.mapped bytes →
        transactions (write_slg env s file target_nvm).2 ≠ []) ∧
    (s <<< 3) ||| (if target_nvm then 0b10 else 0b11) < 128 ∧
    (s <<< 3) ||| 0b10 ≠ (s <<< 3) ||| 0b11 := by
  have hcc := rw_control_code_eq s hs target_nvm
  refine ⟨?_, ?_, ?_, ?_, ?_, ?_⟩
  · intro msgs h m hm
    rw [← hcc.1]
    simp only [read_slg, transactions] at h
    exact read_pages_addr _ _ env msgs h m hm
  · intro msgs h m hm
    rw [← hcc.1]
    cases file with
    | mapped bytes =>
      simp only [write_slg, transactions] at h
      exact write_pages_addr _ _ _ env msgs h m hm
    | _ => simp [write_slg, transactions] at h
  · simp only [read_slg, transactions]
    have : List.range 16 = 0 :: List.range' 1 15 := by decide
    rw [this]
    unfold read_pages
    by_cases hr : (env 0).ret < 0 <;> simp [hr, transactions]
  · intro bytes hf
    subst hf
    simp only [write_slg, transactions]
    have : List.range 16 = 0 :: List.range' 1 15 := by decide
    rw [this]
    unfold write_pages
    by_cases hr : (env 0).ret < 0 <;> simp [hr, transactions]
  · rw [← hcc.1]; exact hcc.2
  · interval_cases s <;> decide

theorem control_code_read_write_witness :
    (1 : Nat) < 16 ∧
    (∀ msgs ∈ transactions (read_slg env_ok 1 true).2, ∀ m ∈ msgs,
        m.addr = (1 <<< 3) ||| (if true then 0b10 else 0b11)) :=
  ⟨by decide, (control_code_read_write 1 (by decide) true env_ok (HexFile.mapped [])).1⟩

/-! ## Decoding one field -/

theorem hexval_of_is_hex_digit (c d : Nat) (h : is_hex_digit c d) : hexval c = some d := by
  obtain ⟨hd, hc⟩ := h
  interval_cases d <;> rcases hc with rfl | rfl <;> decide

theorem is_hex_digit_of_hexval (c d : Nat) (h : hexval c = some d) : is_hex_digit c d := by
  unfold hexval at h
  unfold is_hex_digit hex_digit_upper hex_digit_lower
  split_ifs at h with h1 h2 h3
  all_goals
    simp only [Option.some.injEq, reduceCtorEq] at h
  all_goals
    subst h
    refine ⟨by omega, ?_⟩
    split_ifs <;> omega

theorem strtol16_two_digits (c1 c2 h l : Nat) (h1 : is_hex_digit c1 h) (h2 : is_hex_digit c2 l) :
    strtol16 (snprintf_cc c1 c2) = ((16 * h + l : Nat) : Int) := by
  have e1 := hexval_of_is_hex_digit c1 h h1
  have e2 := hexval_of_is_hex_digit c2 l h2
  obtain ⟨hh, hc1⟩ := h1
  obtain ⟨hl, hc2⟩ := h2
  have n1 : c1 ≠ 0 ∧ c1 ≠ 32 ∧ ¬ (9 ≤ c1 ∧ c1 ≤ 13) ∧ c1 ≠ 45 ∧ c1 ≠ 43 := by
    unfold hex_digit_upper hex_digit_lower at hc1
    rcases hc1 with rfl | rfl <;> split_ifs <;> omega
  have n2 : c2 ≠ 0 := by
    unfold hex_digit_upper hex_digit_lower at hc2
    rcases hc2 with rfl | rfl <;> split_ifs <;> omega
  obtain ⟨a, b, c, d, e⟩ := n1
  have hsp : isspace c1 = false := by
    simp [isspace, b]; omega
  have hs : snprintf_cc c1 c2 = [c1, c2] := by
    have a1 : (c1 != 0) = true := by simp [a]
    have a2 : (c2 != 0) = true := by simp [n2]
    simp only [snprintf_cc, List.takeWhile, a1, a2]
  rw [hs]
  simp only [strtol16, List.dropWhile, hsp, List.head?, Option.some.injEq, beq_iff_eq]
  simp [d, e, strtol_digits, e1, e2, LONG_MAX]
  omega

theorem console_map_printf (f : Nat → Printf) (l : List Nat) :
    console (l.map (fun i => Event.printf (f i))) = l.map f := by
  induction l with
  | nil => rfl
  | cons a l ih => simpa [console] using ih

/-! ## The page loops with a transport that succeeds -/

theorem write_pages_ok (cc : Nat) (pg : List (List Nat)) (pages : List Nat) :
    ∀ env : Nat → IoctlResult, (∀ i < pages.length, 0 ≤ (env i).ret) →
      (write_pages cc pg env pages).1 = true ∧
      bus_events (write_pages cc pg env pages).2 =
        pages.flatMap (fun p => [Event.ioctl (write_msgs cc pg p), Event.usleep 20000]) ∧
      transactions (write_pages cc pg env pages).2 = pages.map (write_msgs cc pg) := by
  induction pages with
  | nil => intro env _; simp [write_pages, bus_events, transactions]
  | cons page rest ih =>
    intro env h
    have h0 : ¬ (env 0).ret < 0 := by
      have := h 0 (by simp)
      omega
    have ih1 := ih (shift env 1) (fun i hi => h (i + 1) (by simpa using hi))
    unfold write_pages
    simp only [h0, if_false]
    refine ⟨ih1.1, ?_, ?_⟩
    · simp [bus_events, bus_events_append, bus_events_write_row, ih1.2.1]
    · simp [transactions, transactions_append, transactions_write_row, ih1.2.2]

theorem erase_pages_ok (cc : Nat) (nvm : Bool) (pages : List Nat) :
    ∀ env : Nat → IoctlResult, (∀ i < pages.length, 0 ≤ (env i).ret) →
      (erase_pages cc nvm env pages).1 = true ∧
      bus_events (erase_pages cc nvm env pages).2 =
        pages.flatMap (fun p => [Event.ioctl (erase_msgs cc nvm p), Event.usleep 20000]) ∧
      transactions (erase_pages cc nvm env pages).2 = pages.map (erase_msgs cc nvm) := by
  induction pages with
  | nil => intro env _; simp [erase_pages, bus_events, transactions]
  | cons page rest ih =>
    intro env h
    have h0 : ¬ (env 0).ret < 0 := by
      have := h 0 (by simp)
      omega
    have ih1 := ih (shift env 1) (fun i hi => h (i + 1) (by simpa using hi))
    unfold erase_pages
    simp only [h0, if_false]
    refine ⟨ih1.1, ?_, ?_⟩
    · simp [bus_events, ih1.2.1]
    · simp [transactions, ih1.2.2]

theorem read_pages_ok (cc : Nat) (pages : List Nat) :
    ∀ env : Nat → IoctlResult, (∀ i < pages.length, 0 ≤ (env i).ret) →
      (read_pages cc env pages).1 = true ∧
      bus_events (read_pages cc env pages).2 =
        pages.map (fun p => Event.ioctl (read_msgs cc p)) ∧
      transactions (read_pages cc env pages).2 = pages.map (read_msgs cc) := by
  induction pages with
  | nil => intro env _; simp [read_pages, bus_events, transactions]
  | cons page rest ih =>
    intro env h
    have h0 : ¬ (env 0).ret < 0 := by
      have := h 0 (by simp)
      omega
    have ih1 := ih (shift env 1) (fun i hi => h (i + 1) (by simpa using hi))
    unfold read_pages
    simp only [h0, if_false]
    refine ⟨ih1.1, ?_, ?_⟩
    · simp [bus_events, bus_events_append, bus_events_read_row, ih1.2.1]
    · simp [transactions, transactions_append, transactions_read_row, ih1.2.2]

/-! ## The page loops with a transport that fails -/

theorem error_lines_append (a b : List Printf) :
    error_lines (a ++ b) = error_lines a ++ error_lines b := by
  induction a with
  | nil => rfl
  | cons e a ih => cases e <;> simp [error_lines, ih]

theorem page_labels_append (a b : List Printf) :
    page_labels (a ++ b) = page_labels a ++ page_labels b := by
  induction a with
  | nil => rfl
  | cons e a ih => cases e <;> simp [page_labels, ih]

theorem error_lines_map_data_byte (f : Nat → Nat) (l : List Nat) :
    error_lines (l.map (fun i => Printf.data_byte (f i))) = [] := by
  induction l with
  | nil => rfl
  | cons a l ih => simpa [error_lines] using ih

theorem page_labels_map_data_byte (f : Nat → Nat) (l : List Nat) :
    page_labels (l.map (fun i => Printf.data_byte (f i))) = [] := by
  induction l with
  | nil => rfl
  | cons a l ih => simpa [page_labels] using ih

theorem console_write_row (pg : List (List Nat)) (page : Nat) :
    error_lines (console (write_row pg page)) = [] ∧
    page_labels (console (write_row pg page)) = [page <<< 4] := by
  simp [write_row, console, console_append, console_map_printf, error_lines,
    error_lines_append, error_lines_map_data_byte, page_labels, page_labels_append,
    page_labels_map_data_byte]

theorem console_read_row (page : Nat) (data : List Nat) :
    error_lines (console (read_row page data)) = [] ∧
    page_labels (console (read_row page data)) = [page <<< 4] := by
  simp [read_row, console, console_append, console_map_printf, error_lines,
    error_lines_append, error_lines_map_data_byte, page_labels, page_labels_append,
    page_labels_map_data_byte]

theorem write_pages_fail (cc : Nat) (pg : List (List Nat)) (pages : List Nat) :
    ∀ (env : Nat → IoctlResult) (k : Nat), k < pages.length →
      (∀ i < k, 0 ≤ (env i).ret) → (env k).ret < 0 →
      (write_pages cc pg env pages).1 = false ∧
      transactions (write_pages cc pg env pages).2 = (pages.take (k + 1)).map (write_msgs cc pg) ∧
      error_lines (console (write_pages cc pg env pages).2) =
        [Printf.error_ioctl (env k).ret (env k).errno] ∧
      page_labels (console (write_pages cc pg env pages).2) =
        (pages.take k).map (fun p => p <<< 4) := by
  induction pages with
  | nil => intro env k hk; simp at hk
  | cons page rest ih =>
    intro env k hk hok hfail
    unfold write_pages
    cases k with
    | zero =>
      simp [hfail, transactions, console, error_lines, page_labels]
    | succ k =>
      have h0 : ¬ (env 0).ret < 0 := by
        have := hok 0 (by simp)
        omega
      have ih1 := ih (shift env 1) k (by simpa using hk)
        (fun i hi => hok (i + 1) (by omega)) hfail
      simp only [h0, if_false]
      refine ⟨ih1.1, ?_, ?_, ?_⟩
      · simp [transactions, transactions_append, transactions_write_row, ih1.2.1]
      · simp [console, console_append, error_lines_append, (console_write_row pg page).1,
          error_lines, ih1.2.2.1, shift]
      · simp [console, console_append, page_labels_append, (console_write_row pg page).2,
          page_labels, ih1.2.2.2]

theorem read_pages_fail (cc : Nat) (pages : List Nat) :
    ∀ (env : Nat → IoctlResult) (k : Nat), k < pages.length →
      (∀ i < k, 0 ≤ (env i).ret) → (env k).ret < 0 →
      (read_pages cc env pages).1 = false ∧
      transactions (read_pages cc env pages).2 = (pages.take (k + 1)).map (read_msgs cc) ∧
      error_lines (console (read_pages cc env pages).2) =
        [Printf.error_ioctl (env k).ret (env k).errno] ∧
      page_labels (console (read_pages cc env pages).2) =
        (pages.take k).map (fun p => p <<< 4) := by
  induction pages with
  | nil => intro env k hk; simp at hk
  | cons page rest ih =>
    intro env k hk hok hfail
    unfold read_pages
    cases k with
    | zero =>
      simp [hfail, transactions, console, error_lines, page_labels]
    | succ k =>
      have h0 : ¬ (env 0).ret < 0 := by
        have := hok 0 (by simp)
        omega
      have ih1 := ih (shift env 1) k (by simpa using hk)
        (fun i hi => hok (i + 1) (by omega)) hfail
      simp only [h0, if_false]
      refine ⟨ih1.1, ?_, ?_, ?_⟩
      · simp [transactions, transactions_append, transactions_read_row, ih1.2.1]
      · simp [console, console_append, error_lines_append,
          (console_read_row page (env 0).data).1, error_lines, ih1.2.2.1, shift]
      · simp [console, console_append, page_labels_append,
          (console_read_row page (env 0).data).2, page_labels, ih1.2.2.2]

theorem erase_pages_fail (cc : Nat) (nvm : Bool) (pages : List Nat) :
    ∀ (env : Nat → IoctlResult) (k : Nat), k < pages.length →
      (∀ i < k, 0 ≤ (env i).ret) → (env k).ret < 0 →
      (erase_pages cc nvm env pages).1 = false ∧
      transactions (erase_pages cc nvm env pages).2 = (pages.take (k + 1)).map (erase_msgs cc nvm) ∧
      error_lines (console (erase_pages cc nvm env pages).2) =
        [Printf.error_ioctl (env k).ret (env k).errno] ∧
      erasing_labels (console (erase_pages cc nvm env pages).2) =
        (pages.take (k + 1)).map (fun p => p <<< 4) := by
  induction pages with
  | nil => intro env k hk; simp at hk
  | cons page rest ih =>
    intro env k hk hok hfail
    unfold erase_pages
    cases k with
    | zero =>
      simp [hfail, transactions, console, error_lines, erasing_labels]
    | succ k =>
      have h0 : ¬ (env 0).ret < 0 := by
        have := hok 0 (by simp)
        omega
      have ih1 := ih (shift env 1) k (by simpa using hk)
        (fun i hi => hok (i + 1) (by omega)) hfail
      simp only [h0, if_false]
      refine ⟨ih1.1, ?_, ?_, ?_⟩
      · simp [transactions, ih1.2.1]
      · simp [console, error_lines, ih1.2.2.1, shift]
      · simp [console, erasing_labels, ih1.2.2.2]

theorem page_byte_decode_pages (bytes : List Nat) (p o : Nat) (hp : p < 16) (ho : o < 16) :
    page_byte (decode_pages bytes) p o = decode_byte bytes p o := by
  simp [page_byte, decode_pages, List.getD_eq_getElem?_getD, List.getElem?_map,
    List.getElem?_range, hp, ho]

theorem decode_byte_lt (bytes : List Nat) (p o : Nat) : decode_byte bytes p o < 256 := by
  unfold decode_byte
  simp only
  omega

theorem decode_byte_two_digits (bytes : List Nat) (p o h l : Nat)
    (h1 : is_hex_digit (buf_at bytes (p * 44 + 9 + 2 * o)) h)
    (h2 : is_hex_digit (buf_at bytes (p * 44 + 9 + 2 * o + 1)) l) :
    decode_byte bytes p o = 16 * h + l := by
  unfold decode_byte
  simp only
  rw [strtol16_two_digits _ _ h l h1 h2]
  have := h1.1
  have := h2.1
  omega

theorem decode_byte_field_holds (bytes : List Nat) (p o b : Nat)
    (h : field_holds bytes p o b) : decode_byte bytes p o = b := by
  rw [decode_byte_two_digits bytes p o _ _ h.1 h.2]
  omega

theorem strtol16_first_digit (c1 c2 h : Nat) (h1 : is_hex_digit c1 h) (h2 : hexval c2 = none) :
    strtol16 (snprintf_cc c1 c2) = (h : Int) := by
  have e1 := hexval_of_is_hex_digit c1 h h1
  obtain ⟨hh, hc1⟩ := h1
  have n1 : c1 ≠ 0 ∧ c1 ≠ 32 ∧ ¬ (9 ≤ c1 ∧ c1 ≤ 13) ∧ c1 ≠ 45 ∧ c1 ≠ 43 := by
    unfold hex_digit_upper hex_digit_lower at hc1
    rcases hc1 with rfl | rfl <;> split_ifs <;> omega
  obtain ⟨a, b, c, d, e⟩ := n1
  have hsp : isspace c1 = false := by
    simp [isspace, b]; omega
  have a1 : (c1 != 0) = true := by simp [a]
  by_cases hz : c2 = 0
  · have hs : snprintf_cc c1 c2 = [c1] := by
      simp [snprintf_cc, List.takeWhile, a1, hz]
    rw [hs]
    simp only [strtol16, List.dropWhile, hsp, List.head?, Option.some.injEq, beq_iff_eq]
    simp [d, e, strtol_digits, e1, LONG_MAX]
    omega
  · have a2 : (c2 != 0) = true := by simp [hz]
    have hs : snprintf_cc c1 c2 = [c1, c2] := by
      simp only [snprintf_cc, List.takeWhile, a1, a2]
    rw [hs]
    simp only [strtol16, List.dropWhile, hsp, List.head?, Option.some.injEq, beq_iff_eq]
    simp [d, e, strtol_digits, e1, h2, LONG_MAX]
    omega

theorem strtol16_space_digit (c1 c2 l : Nat) (h1 : isspace c1 = true) (h2 : is_hex_digit c2 l) :
    strtol16 (snprintf_cc c1 c2) = (l : Int) := by
  have e2 := hexval_of_is_hex_digit c2 l h2
  obtain ⟨hl, hc2⟩ := h2
  have n2 : c2 ≠ 0 ∧ c2 ≠ 32 ∧ ¬ (9 ≤ c2 ∧ c2 ≤ 13) ∧ c2 ≠ 45 ∧ c2 ≠ 43 := by
    unfold hex_digit_upper hex_digit_lower at hc2
    rcases hc2 with rfl | rfl <;> split_ifs <;> omega
  obtain ⟨a, b, c, d, e⟩ := n2
  have hsp : isspace c2 = false := by
    simp [isspace, b]; omega
  have a2 : (c2 != 0) = true := by simp [a]
  have a1 : (c1 != 0) = true := by
    have : c1 ≠ 0 := by
      intro h0; subst h0; simp [isspace] at h1
    simp [this]
  have hs : snprintf_cc c1 c2 = [c1, c2] := by
    simp only [snprintf_cc, List.takeWhile, a1, a2]
  rw [hs]
  simp only [strtol16, List.dropWhile, h1, hsp, List.head?, Option.some.injEq, beq_iff_eq]
  simp [d, e, strtol_digits, e2, LONG_MAX]
  omega

theorem strtol16_no_digit (c1 c2 : Nat) (h1 : hexval c1 = none) (hsp : isspace c1 = false)
    (hm : c1 ≠ 45) (hpl : c1 ≠ 43) :
    strtol16 (snprintf_cc c1 c2) = 0 := by
  by_cases hz1 : c1 = 0
  · have hs : snprintf_cc c1 c2 = [] := by
      simp [snprintf_cc, List.takeWhile, hz1]
    rw [hs]
    simp [strtol16, strtol_digits, LONG_MAX]
  · have a1 : (c1 != 0) = true := by simp [hz1]
    by_cases hz : c2 = 0
    · have hs : snprintf_cc c1 c2 = [c1] := by
        simp [snprintf_cc, List.takeWhile, a1, hz]
      rw [hs]
      simp only [strtol16, List.dropWhile, hsp, List.head?, Option.some.injEq, beq_iff_eq]
      simp [hm, hpl, strtol_digits, h1, LONG_MAX]
    · have a2 : (c2 != 0) = true := by simp [hz]
      have hs : snprintf_cc c1 c2 = [c1, c2] := by
        simp only [snprintf_cc, List.takeWhile, a1, a2]
      rw [hs]
      simp only [strtol16, List.dropWhile, hsp, List.head?, Option.some.injEq, beq_iff_eq]
      simp [hm, hpl, strtol_digits, h1, LONG_MAX]

/-! ## write_slg with a transport that succeeds -/

theorem write_buf_decode_pages (bytes : List Nat) (p : Nat) (hp : p < 16) :
    write_buf (decode_pages bytes) p =
      (p <<< 4) % 256 :: (List.range 16).map (fun o => decode_byte bytes p o) := by
  unfold write_buf
  congr 1
  apply List.map_congr_left
  intro o ho
  exact page_byte_decode_pages bytes p o hp (List.mem_range.mp ho)

theorem write_slg_mapped_ok (env : Nat → IoctlResult) (s : Nat) (bytes : List Nat) (nvm : Bool)
    (henv : ∀ i < 16, 0 ≤ (env i).ret) :
    (write_slg env s (HexFile.mapped bytes) nvm).1 = true ∧
    bus_events (write_slg env s (HexFile.mapped bytes) nvm).2 =
      (List.range 16).flatMap (fun p =>
        [Event.ioctl (write_msgs (rw_control_code s nvm) (decode_pages bytes) p),
         Event.usleep 20000]) ∧
    transactions (write_slg env s (HexFile.mapped bytes) nvm).2 =
      (List.range 16).map (write_msgs (rw_control_code s nvm) (decode_pages bytes)) := by
  have h := write_pages_ok (rw_control_code s nvm) (decode_pages bytes) (List.range 16) env
    (by simpa using henv)
  simp only [write_slg, bus_events, transactions]
  exact h

theorem synthetic_image_ramp_holds :
    ∀ p < 16, ∀ o < 16, field_holds (synthetic_image ramp) p o (ramp p o) := by
  decide!

/-- C2: round trip.  If the mapped image holds, for every page `p` and offset `o` in
0..15, the two-hex-digit text of `M p o` at positions `p*44+9+2*o` and `p*44+9+2*o+1`,
then the payloads built from the decoded pages carry, in their bytes 1..16 taken in
page-ascending order, exactly the 256 bytes of `M` in page-then-offset order; and with
a transport that succeeds these are the payloads `write_slg` sends. -/
theorem decode_encode_round_trip (bytes : List Nat) (M : Nat → Nat → Nat)
    (hbuf : ∀ p < 16, ∀ o < 16, field_holds bytes p o (M p o)) :
    (List.range 16).flatMap (fun p => (write_buf (decode_pages bytes) p).drop 1) =
      (List.range 16).flatMap (fun p => (List.range 16).map (fun o => M p o)) ∧
    (∀ (env : Nat → IoctlResult) (s : Nat) (nvm : Bool), (∀ i < 16, 0 ≤ (env i).ret) →
      (transactions (write_slg env s (HexFile.mapped bytes) nvm).2).flatMap
          (fun msgs => msgs.flatMap (fun m => m.buf.drop 1)) =
        (List.range 16).flatMap (fun p => (List.range 16).map (fun o => M p o))) := by
  have key : ∀ p ∈ List.range 16, (write_buf (decode_pages bytes) p).drop 1 =
      (List.range 16).map (fun o => M p o) := by
    intro p hp
    have hp16 := List.mem_range.mp hp
    rw [write_buf_decode_pages bytes p hp16]
    simp only [List.drop_succ_cons, List.drop_zero]
    apply List.map_congr_left
    intro o ho
    exact decode_byte_field_holds bytes p o _ (hbuf p hp16 o (List.mem_range.mp ho))
  refine ⟨List.flatMap_congr key, ?_⟩
  intro env s nvm henv
  rw [(write_slg_mapped_ok env s bytes nvm henv).2.2, List.flatMap_map]
  rw [← List.flatMap_congr key]
  apply List.flatMap_congr
  intro p _
  simp [write_msgs]

theorem decode_encode_round_trip_witness :
    (∀ p < 16, ∀ o < 16, field_holds (synthetic_image ramp) p o (ramp p o)) ∧
    (List.range 16).flatMap (fun p => (write_buf (decode_pages (synthetic_image ramp)) p).drop 1) =
      (List.range 16).flatMap (fun p => (List.range 16).map (fun o => ramp p o)) :=
  ⟨synthetic_image_ramp_holds,
    (decode_encode_round_trip (synthetic_image ramp) ramp synthetic_image_ramp_holds).1⟩

/-- C3: for every page `p` and offset `o` in 0..15, when the characters at buffer
positions `p*44+9+2*o` and `p*44+9+2*o+1` are hexadecimal digits of values `h` and
`l`, the decoded byte `pages[p][o]` is `16*h + l`; in particular an image whose data
fields all read `AA` decodes to the 16x16 matrix of all `0xAA`. -/
theorem decode_field_value (bytes : List Nat) :
    (∀ p o h l : Nat, p < 16 → o < 16 →
      is_hex_digit (buf_at bytes (p * 44 + 9 + 2 * o)) h →
      is_hex_digit (buf_at bytes (p * 44 + 9 + 2 * o + 1)) l →
      page_byte (decode_pages bytes) p o = 16 * h + l) ∧
    ((∀ p < 16, ∀ o < 16, buf_at bytes (p * 44 + 9 + 2 * o) = 65 ∧
        buf_at bytes (p * 44 + 9 + 2 * o + 1) = 65) →
      decode_pages bytes = List.replicate 16 (List.replicate 16 0xAA)) := by
  constructor
  · intro p o h l hp ho h1 h2
    rw [page_byte_decode_pages bytes p o hp ho]
    exact decode_byte_two_digits bytes p o h l h1 h2
  · intro hA
    have hrow : ∀ p ∈ List.range 16,
        (List.range 16).map (fun o => decode_byte bytes p o) = List.replicate 16 0xAA := by
      intro p hp
      have hp16 := List.mem_range.mp hp
      have : ∀ o ∈ List.range 16, decode_byte bytes p o = (fun _ => 0xAA) o := by
        intro o ho
        have ho16 := List.mem_range.mp ho
        have hh := hA p hp16 o ho16
        exact decode_byte_two_digits bytes p o 10 10
          (by rw [hh.1]; decide) (by rw [hh.2]; decide)
      rw [List.map_congr_left this]
      decide
    unfold decode_pages
    rw [List.map_congr_left hrow]
    decide

theorem decode_field_value_witness :
    decode_pages (List.replicate 704 65) = List.replicate 16 (List.replicate 16 0xAA) :=
  (decode_field_value (List.replicate 704 65)).2 (by decide!)

theorem decode_byte_past_end (bytes : List Nat) (p o : Nat)
    (h : bytes.length ≤ p * 44 + 9 + 2 * o) : decode_byte bytes p o = 0 := by
  have h1 : buf_at bytes (p * 44 + 9 + 2 * o) = 0 := by
    simp [buf_at, List.getD_eq_getElem?_getD, List.getElem?_eq_none h]
  unfold decode_byte
  simp only
  rw [h1, strtol16_no_digit 0 _ (by decide) (by decide) (by decide) (by decide)]
  rfl

/-- C4, as the code has it (counterexample to the claim): a mapped image of length
100, far too short to cover 16 pages, does not make `write_slg` fail: with a
transport that succeeds it returns success after 16 write transactions. -/
theorem short_image_is_written :
    (List.replicate 100 65).length = 100 ∧
    (write_slg env_ok 1 (HexFile.mapped (List.replicate 100 65)) true).1 = true ∧
    (transactions (write_slg env_ok 1 (HexFile.mapped (List.replicate 100 65)) true).2).length
      = 16 ∧
    ¬ ((write_slg env_ok 1 (HexFile.mapped (List.replicate 100 65)) true).1 = false ∧
       transactions (write_slg env_ok 1 (HexFile.mapped (List.replicate 100 65)) true).2 = []) := by
  decide

/-- C4, amended: `write_slg` never checks the length of the image.  For a mapped
image of any length and a transport that succeeds it returns success after 16 write
transactions, every field that starts at or past the end of the file decoding to
`0x00`; it reports failure without a transport call when `open`, `fstat` or `mmap`
fails. -/
theorem write_slg_ignores_length (env : Nat → IoctlResult) (s : Nat) (nvm : Bool)
    (henv : ∀ i < 16, 0 ≤ (env i).ret) :
    (∀ bytes : List Nat,
      (write_slg env s (HexFile.mapped bytes) nvm).1 = true ∧
      (transactions (write_slg env s (HexFile.mapped bytes) nvm).2).length = 16 ∧
      (∀ p < 16, ∀ o < 16, bytes.length ≤ p * 44 + 9 + 2 * o →
        page_byte (decode_pages bytes) p o = 0)) ∧
    (∀ file : HexFile, (∀ bytes, file ≠ HexFile.mapped bytes) →
      (write_slg env s file nvm).1 = false ∧
      transactions (write_slg env s file nvm).2 = []) := by
  constructor
  · intro bytes
    have h := write_slg_mapped_ok env s bytes nvm henv
    refine ⟨h.1, ?_, ?_⟩
    · rw [h.2.2]; simp
    · intro p hp o ho hlen
      rw [page_byte_decode_pages bytes p o hp ho]
      exact decode_byte_past_end bytes p o hlen
  · intro file hf
    cases file with
    | mapped bytes => exact absurd rfl (hf bytes)
    | _ => simp [write_slg, transactions]

theorem write_slg_ignores_length_witness :
    (∀ i < 16, 0 ≤ (env_ok i).ret) ∧
    (write_slg env_ok 1 (HexFile.mapped (List.replicate 100 65)) true).1 = true ∧
    (write_slg env_ok 1 HexFile.mmap_failed true).1 = false :=
  ⟨by decide,
   ((write_slg_ignores_length env_ok 1 true (by decide)).1 (List.replicate 100 65)).1,
   ((write_slg_ignores_length env_ok 1 true (by decide)).2 HexFile.mmap_failed
      (by intro bytes h; cases h)).1⟩

/-- C5, as the code has it (counterexample to the claim): in 704-character images
whose field of page 0, offset 0 reads `G2`, `2G` or ` 5`, that field is decoded to
the byte `0x00`, `0x02` and `0x05`, and `write_slg` returns success after 16 write
transactions. -/
theorem non_hex_field_is_decoded :
    hexval 71 = none ∧ hexval 32 = none ∧
    page_byte (decode_pages (image_with_field 71 50)) 0 0 = 0x00 ∧
    page_byte (decode_pages (image_with_field 50 71)) 0 0 = 0x02 ∧
    page_byte (decode_pages (image_with_field 32 53)) 0 0 = 0x05 ∧
    (write_slg env_ok 1 (HexFile.mapped (image_with_field 71 50)) true).1 = true ∧
    (transactions (write_slg env_ok 1 (HexFile.mapped (image_with_field 71 50)) true).2).length
      = 16 := by
  decide

/-- C5, amended: a field that is not two hexadecimal digits does not make decoding
fail.  Every field yields a byte: `0x00` when its first character is neither a
hexadecimal digit, white space nor a sign (`G2`); the value of the first digit when
only the first character is a hexadecimal digit (`2G`); the value of the second digit
when the first character is white space (` 5`).  With a transport that succeeds
`write_slg` then returns success after 16 write transactions. -/
theorem decode_has_no_failure (bytes : List Nat) (p o : Nat) (hp : p < 16) (ho : o < 16) :
    page_byte (decode_pages bytes) p o < 256 ∧
    (hexval (buf_at bytes (p * 44 + 9 + 2 * o)) = none →
      isspace (buf_at bytes (p * 44 + 9 + 2 * o)) = false →
      buf_at bytes (p * 44 + 9 + 2 * o) ≠ 45 → buf_at bytes (p * 44 + 9 + 2 * o) ≠ 43 →
      page_byte (decode_pages bytes) p o = 0) ∧
    (∀ h, is_hex_digit (buf_at bytes (p * 44 + 9 + 2 * o)) h →
      hexval (buf_at bytes (p * 44 + 9 + 2 * o + 1)) = none →
      page_byte (decode_pages bytes) p o = h) ∧
    (∀ l, isspace (buf_at bytes (p * 44 + 9 + 2 * o)) = true →
      is_hex_digit (buf_at bytes (p * 44 + 9 + 2 * o + 1)) l →
      page_byte (decode_pages bytes) p o = l) ∧
    (∀ (env : Nat → IoctlResult) (s : Nat) (nvm : Bool), (∀ i < 16, 0 ≤ (env i).ret) →
      (write_slg env s (HexFile.mapped bytes) nvm).1 = true ∧
      (transactions (write_slg env s (HexFile.mapped bytes) nvm).2).length = 16) := by
  rw [page_byte_decode_pages bytes p o hp ho]
  refine ⟨decode_byte_lt bytes p o, ?_, ?_, ?_, ?_⟩
  · intro h1 h2 h3 h4
    unfold decode_byte
    simp only
    rw [strtol16_no_digit _ _ h1 h2 h3 h4]
    rfl
  · intro h h1 h2
    unfold decode_byte
    simp only
    rw [strtol16_first_digit _ _ h h1 h2]
    have := h1.1
    omega
  · intro l h1 h2
    unfold decode_byte
    simp only
    rw [strtol16_space_digit _ _ l h1 h2]
    have := h2.1
    omega
  · intro env s nvm henv
    have h := write_slg_mapped_ok env s bytes nvm henv
    refine ⟨h.1, ?_⟩
    rw [h.2.2]; simp

theorem decode_has_no_failure_witness :
    (0 : Nat) < 16 ∧ page_byte (decode_pages (image_with_field 50 71)) 0 0 = 2 :=
  ⟨by decide,
   (decode_has_no_failure (image_with_field 50 71) 0 0 (by decide) (by decide)).2.2.1 2
     (by decide) (by decide)⟩

/-! ## The write run of main -/

theorem write_slg_unmapped (env : Nat → IoctlResult) (s : Nat) (nvm : Bool) (file : HexFile)
    (hf : ∀ bytes, file ≠ HexFile.mapped bytes) :
    (write_slg env s file nvm).1 = false ∧ transactions (write_slg env s file nvm).2 = [] := by
  cases file with
  | mapped bytes => exact absurd rfl (hf bytes)
  | _ => simp [write_slg, transactions]

/-- C6, as the code has it (counterexample to the claim): in a write run whose hex
file cannot be opened, the transport trace of the run is not empty: `main` has
already issued the 16 erase transactions, addressed to `1 << 3`, before `write_slg`
tries to open the file. -/
theorem write_run_erases_before_open :
    (transactions (main_dispatch env_ok 1 false true false HexFile.open_failed true).2).length
      = 16 ∧
    transactions (main_dispatch env_ok 1 false true false HexFile.open_failed true).2 =
      (List.range 16).map (erase_msgs 8 true) ∧
    transactions (main_dispatch env_ok 1 false true false HexFile.open_failed true).2 ≠ [] := by
  decide

/-- C6, amended: `write_slg` itself issues no transaction before the image is opened,
mapped and decoded: when `open`, `fstat` or `mmap` fails it returns failure with an
empty transport trace.  In the write run of `main` the erase comes first, so the
transport trace of such a run is exactly the trace of `erase_slg` (its 16 erase
transactions when the transport succeeds); no write or read transaction follows and
the exit code is 1. -/
theorem write_run_unmapped_file (env : Nat → IoctlResult) (s : Nat) (erase nvm : Bool)
    (file : HexFile) (hf : ∀ bytes, file ≠ HexFile.mapped bytes) :
    (write_slg env s file nvm).1 = false ∧
    transactions (write_slg env s file nvm).2 = [] ∧
    (main_dispatch env s false true erase file nvm).1 = 1 ∧
    transactions (main_dispatch env s false true erase file nvm).2 =
      transactions (erase_slg env s nvm).2 ∧
    ((∀ i < 16, 0 ≤ (env i).ret) →
      transactions (main_dispatch env s false true erase file nvm).2 =
        (List.range 16).map (erase_msgs (erase_control_code s) nvm)) := by
  have hw := fun e => write_slg_unmapped e s nvm file hf
  have hmain : (main_dispatch env s false true erase file nvm).1 = 1 ∧
      transactions (main_dispatch env s false true erase file nvm).2 =
        transactions (erase_slg env s nvm).2 := by
    unfold main_dispatch
    by_cases he : (erase_slg env s nvm).1 = true
    · simp [he, (hw _).1, (hw _).2, transactions_append, transactions]
    · simp [he]
  refine ⟨(hw env).1, (hw env).2, hmain.1, hmain.2, ?_⟩
  intro henv
  rw [hmain.2]
  have h := erase_pages_ok (erase_control_code s) nvm (List.range 16) env (by simpa using henv)
  simp only [erase_slg, transactions]
  exact h.2.2

theorem write_run_unmapped_file_witness :
    (∀ bytes, HexFile.open_failed ≠ HexFile.mapped bytes) ∧
    (main_dispatch env_ok 1 false true false HexFile.open_failed true).1 = 1 :=
  ⟨(by intro bytes h; cases h),
   (write_run_unmapped_file env_ok 1 false true HexFile.open_failed
      (by intro bytes h; cases h)).2.2.1⟩

/-! ## The sequences of the three operations -/

theorem shl4_u8 (p : Nat) (hp : p < 16) : (p <<< 4) % 256 = 16 * p := by
  simp only [Nat.shiftLeft_eq]
  omega

/-- C7: for every page buffer, control code and transport that succeeds on its 16
calls, the write loop returns success and its bus activity is, for pages 0, 1, ..., 15
in this order, one transaction followed by a 20000 microsecond delay; the transaction
is a single write message (`flags = 0`) of 17 bytes to the control code, whose byte 0
is `page << 4 = 16 * page` and whose bytes 1..16 are the 16 bytes of the page.
`write_slg` does exactly this with the decoded pages and the read/write control
code: 16 transactions in all. -/
theorem write_slg_sequence (env : Nat → IoctlResult) (henv : ∀ i < 16, 0 ≤ (env i).ret) :
    (∀ (cc : Nat) (pg : List (List Nat)),
      (write_pages cc pg env (List.range 16)).1 = true ∧
      bus_events (write_pages cc pg env (List.range 16)).2 =
        (List.range 16).flatMap (fun p =>
          [Event.ioctl [{ addr := cc, flags := 0,
                          buf := 16 * p :: (List.range 16).map (fun i => page_byte pg p i),
                          len := 17 }],
           Event.usleep 20000]) ∧
      ∀ p, (16 * p :: (List.range 16).map (fun i => page_byte pg p i)).length = 17) ∧
    (∀ (s : Nat) (bytes : List Nat) (nvm : Bool),
      (write_slg env s (HexFile.mapped bytes) nvm).1 = true ∧
      bus_events (write_slg env s (HexFile.mapped bytes) nvm).2 =
        (List.range 16).flatMap (fun p =>
          [Event.ioctl [{ addr := rw_control_code s nvm, flags := 0,
                          buf := 16 * p :: (List.range 16).map
                            (fun i => page_byte (decode_pages bytes) p i),
                          len := 17 }],
           Event.usleep 20000]) ∧
      (transactions (write_slg env s (HexFile.mapped bytes) nvm).2).length = 16) := by
  have hmsg : ∀ (cc : Nat) (pg : List (List Nat)), ∀ p ∈ List.range 16,
      write_msgs cc pg p =
        [{ addr := cc, flags := 0,
           buf := 16 * p :: (List.range 16).map (fun i => page_byte pg p i),
           len := 17 }] := by
    intro cc pg p hp
    simp only [write_msgs, write_buf, shl4_u8 p (List.mem_range.mp hp)]
  constructor
  · intro cc pg
    have h := write_pages_ok cc pg (List.range 16) env (by simpa using henv)
    refine ⟨h.1, ?_, ?_⟩
    · rw [h.2.1]
      apply List.flatMap_congr
      intro p hp
      rw [hmsg cc pg p hp]
    · intro p
      simp
  · intro s bytes nvm
    have h := write_slg_mapped_ok env s bytes nvm henv
    refine ⟨h.1, ?_, ?_⟩
    · rw [h.2.1]
      apply List.flatMap_congr
      intro p hp
      rw [hmsg _ _ p hp]
    · rw [h.2.2]; simp

theorem write_slg_sequence_witness :
    (∀ i < 16, 0 ≤ (env_ok i).ret) ∧
    (write_slg env_ok 1 (HexFile.mapped (List.replicate 704 65)) true).1 = true ∧
    (transactions (write_slg env_ok 1 (HexFile.mapped (List.replicate 704 65)) true).2).length
      = 16 :=
  ⟨by decide,
   ((write_slg_sequence env_ok (by decide)).2 1 (List.replicate 704 65) true).1,
   ((write_slg_sequence env_ok (by decide)).2 1 (List.replicate 704 65) true).2.2⟩

/-- C8: fail-fast.  For each of `read_slg`, `write_slg` (on a mapped image) and
`erase_slg` and every page `k` in 0..15: if the transport succeeds on pages 0..k-1
and returns an error on page `k`, the operation returns failure and its transactions
are exactly those of pages 0, ..., k, one each: `k + 1` transactions, no second attempt
and none for pages k+1..15. -/
theorem fail_fast (env : Nat → IoctlResult) (k s : Nat) (nvm : Bool) (bytes : List Nat)
    (hk : k < 16) (hok : ∀ i < k, 0 ≤ (env i).ret) (hfail : (env k).ret < 0) :
    ((read_slg env s nvm).1 = false ∧
      transactions (read_slg env s nvm).2 =
        (List.range (k + 1)).map (read_msgs (rw_control_code s nvm))) ∧
    ((write_slg env s (HexFile.mapped bytes) nvm).1 = false ∧
      transactions (write_slg env s (HexFile.mapped bytes) nvm).2 =
        (List.range (k + 1)).map (write_msgs (rw_control_code s nvm) (decode_pages bytes))) ∧
    ((erase_slg env s nvm).1 = false ∧
      transactions (erase_slg env s nvm).2 =
        (List.range (k + 1)).map (erase_msgs (erase_control_code s) nvm)) ∧
    ((transactions (read_slg env s nvm).2).length = k + 1 ∧
      (transactions (write_slg env s (HexFile.mapped bytes) nvm).2).length = k + 1 ∧
      (transactions (erase_slg env s nvm).2).length = k + 1) := by
  have htake : List.take (k + 1) (List.range 16) = List.range (k + 1) := by
    rw [List.take_range]
    congr 1
    omega
  have hr := read_pages_fail (rw_control_code s nvm) (List.range 16) env k (by simpa using hk)
    hok hfail
  have hw := write_pages_fail (rw_control_code s nvm) (decode_pages bytes) (List.range 16) env k
    (by simpa using hk) hok hfail
  have he := erase_pages_fail (erase_control_code s) nvm (List.range 16) env k
    (by simpa using hk) hok hfail
  rw [htake] at hr hw he
  have e1 : transactions (read_slg env s nvm).2 =
      (List.range (k + 1)).map (read_msgs (rw_control_code s nvm)) := by
    simp only [read_slg, transactions]; exact hr.2.1
  have e2 : transactions (write_slg env s (HexFile.mapped bytes) nvm).2 =
      (List.range (k + 1)).map (write_msgs (rw_control_code s nvm) (decode_pages bytes)) := by
    simp only [write_slg, transactions]; exact hw.2.1
  have e3 : transactions (erase_slg env s nvm).2 =
      (List.range (k + 1)).map (erase_msgs (erase_control_code s) nvm) := by
    simp only [erase_slg, transactions]; exact he.2.1
  refine ⟨⟨hr.1, e1⟩, ⟨hw.1, e2⟩, ⟨he.1, e3⟩, ?_, ?_, ?_⟩
  · rw [e1]; simp
  · rw [e2]; simp
  · rw [e3]; simp

theorem fail_fast_witness :
    (7 < 16 ∧ (∀ i < 7, 0 ≤ (env_fail_at 7 i).ret) ∧ (env_fail_at 7 7).ret < 0) ∧
    (write_slg (env_fail_at 7) 1 (HexFile.mapped (List.replicate 704 65)) true).1 = false ∧
    transactions (write_slg (env_fail_at 7) 1 (HexFile.mapped (List.replicate 704 65)) true).2 =
      (List.range (7 + 1)).map
        (write_msgs (rw_control_code 1 true) (decode_pages (List.replicate 704 65))) :=
  ⟨⟨by decide, by decide, by decide⟩,
   (fail_fast (env_fail_at 7) 7 1 true (List.replicate 704 65) (by decide) (by decide)
      (by decide)).2.1⟩

/-! ## What a failed operation reports -/

/-- C9, as the code has it (counterexample to the claim): a write that fails on page 7
and a write that fails on page 3 report the same thing: the same return value
`false` and the same error line, which carries `ioctl`'s return value and `errno`
and no page.  The same holds for `read_slg` and `erase_slg`. -/
theorem failure_report_has_no_page :
    (write_slg (env_fail_at 7) 1 (HexFile.mapped (List.replicate 704 65)) true).1 =
      (write_slg (env_fail_at 3) 1 (HexFile.mapped (List.replicate 704 65)) true).1 ∧
    error_lines (console
        (write_slg (env_fail_at 7) 1 (HexFile.mapped (List.replicate 704 65)) true).2) =
      error_lines (console
        (write_slg (env_fail_at 3) 1 (HexFile.mapped (List.replicate 704 65)) true).2) ∧
    error_lines (console
        (write_slg (env_fail_at 7) 1 (HexFile.mapped (List.replicate 704 65)) true).2) =
      [Printf.error_ioctl (-1) 5] ∧
    (read_slg (env_fail_at 7) 1 true).1 = (read_slg (env_fail_at 3) 1 true).1 ∧
    error_lines (console (read_slg (env_fail_at 7) 1 true).2) =
      error_lines (console (read_slg (env_fail_at 3) 1 true).2) ∧
    (erase_slg (env_fail_at 7) 1 true).1 = (erase_slg (env_fail_at 3) 1 true).1 ∧
    error_lines (console (erase_slg (env_fail_at 7) 1 true).2) =
      error_lines (console (erase_slg (env_fail_at 3) 1 true).2) := by
  decide

/-- C9, amended: when `read_slg`, `write_slg` or `erase_slg` stops because the
transport failed on page `k`, it returns `false`, whatever `k` is, and prints one
error line, made of `ioctl`'s return value and `errno` only.  The page shows only in
the progress output printed before that line: `read_slg` and `write_slg` have
printed the rows of pages 0..k-1 (labels `0 << 4`, ..., `(k-1) << 4`), and `erase_slg`
has printed `Erasing` with the labels `0 << 4`, ..., `k << 4`, the last one being
that of the failing page. -/
theorem failure_report (env : Nat → IoctlResult) (k s : Nat) (nvm : Bool) (bytes : List Nat)
    (hk : k < 16) (hok : ∀ i < k, 0 ≤ (env i).ret) (hfail : (env k).ret < 0) :
    ((read_slg env s nvm).1 = false ∧
      error_lines (console (read_slg env s nvm).2) =
        [Printf.error_ioctl (env k).ret (env k).errno] ∧
      page_labels (console (read_slg env s nvm).2) = (List.range k).map (fun p => p <<< 4)) ∧
    ((write_slg env s (HexFile.mapped bytes) nvm).1 = false ∧
      error_lines (console (write_slg env s (HexFile.mapped bytes) nvm).2) =
        [Printf.error_ioctl (env k).ret (env k).errno] ∧
      page_labels (console (write_slg env s (HexFile.mapped bytes) nvm).2) =
        (List.range k).map (fun p => p <<< 4)) ∧
    ((erase_slg env s nvm).1 = false ∧
      error_lines (console (erase_slg env s nvm).2) =
        [Printf.error_ioctl (env k).ret (env k).errno] ∧
      erasing_labels (console (erase_slg env s nvm).2) =
        (List.range (k + 1)).map (fun p => p <<< 4)) := by
  have htake : List.take (k + 1) (List.range 16) = List.range (k + 1) := by
    rw [List.take_range]
    congr 1
    omega
  have htake0 : List.take k (List.range 16) = List.range k := by
    rw [List.take_range]
    congr 1
    omega
  have hr := read_pages_fail (rw_control_code s nvm) (List.range 16) env k (by simpa using hk)
    hok hfail
  have hw := write_pages_fail (rw_control_code s nvm) (decode_pages bytes) (List.range 16) env k
    (by simpa using hk) hok hfail
  have he := erase_pages_fail (erase_control_code s) nvm (List.range 16) env k
    (by simpa using hk) hok hfail
  rw [htake0] at hr hw
  rw [htake] at he
  refine ⟨⟨hr.1, ?_, ?_⟩, ⟨hw.1, ?_, ?_⟩, ⟨he.1, ?_, ?_⟩⟩
  · simp only [read_slg, console, error_lines]; exact hr.2.2.1
  · simp only [read_slg, console, page_labels]; exact hr.2.2.2
  · simp only [write_slg, console, error_lines]; exact hw.2.2.1
  · simp only [write_slg, console, page_labels]; exact hw.2.2.2
  · simp only [erase_slg, console, error_lines]; exact he.2.2.1
  · simp only [erase_slg, console, erasing_labels]; exact he.2.2.2

theorem failure_report_witness :
    (7 < 16 ∧ (∀ i < 7, 0 ≤ (env_fail_at 7 i).ret) ∧ (env_fail_at 7 7).ret < 0) ∧
    (write_slg (env_fail_at 7) 1 (HexFile.mapped (List.replicate 704 65)) true).1 = false ∧
    error_lines (console
        (write_slg (env_fail_at 7) 1 (HexFile.mapped (List.replicate 704 65)) true).2) =
      [Printf.error_ioctl (env_fail_at 7 7).ret (env_fail_at 7 7).errno] ∧
    page_labels (console
        (write_slg (env_fail_at 7) 1 (HexFile.mapped (List.replicate 704 65)) true).2) =
      (List.range 7).map (fun p => p <<< 4) :=
  ⟨⟨by decide, by decide, by decide⟩,
   (failure_report (env_fail_at 7) 7 1 true (List.replicate 704 65) (by decide) (by decide)
      (by decide)).2.1⟩

/-! ## erase_slg -/

theorem erase_byte_facts (nvm : Bool) (p : Nat) (hp : p < 16) :
    (((if nvm then 0x80 else 0x90) ||| p) % 256 = (if nvm then 0x80 else 0x90) ||| p) ∧
    ((if nvm then 0x80 else 0x90) ||| p) % 16 = p ∧
    ((if nvm then 0x80 else 0x90) ||| p) / 16 = (if nvm then 0x8 else 0x9) := by
  interval_cases p <;> cases nvm <;> decide

theorem erase_control_code_eq (s : Nat) (hs : s < 16) :
    erase_control_code s = s <<< 3 ∧ s <<< 3 < 128 := by
  interval_cases s <;> decide

/-- C10: for every slave id `s` in 0..15, either region and a transport that succeeds
on its 16 calls, `erase_slg` returns success and its bus activity is, for pages
0, 1, ..., 15 in this order, one transaction followed by a 20000 microsecond delay; the
transaction is a single write message (`flags = 0`) of 2 bytes to the address
`s << 3` (no region bits, below 128), byte 0 being `0xE3` and byte 1 being
`(0x80 for NVM, 0x90 for EEPROM) | page`, whose low 4 bits are the page and whose
high 4 bits are the region pattern. -/
theorem erase_slg_sequence (env : Nat → IoctlResult) (s : Nat) (nvm : Bool) (hs : s < 16)
    (henv : ∀ i < 16, 0 ≤ (env i).ret) :
    (erase_slg env s nvm).1 = true ∧
    bus_events (erase_slg env s nvm).2 =
      (List.range 16).flatMap (fun p =>
        [Event.ioctl [{ addr := s <<< 3, flags := 0,
                        buf := [0xE3, (if nvm then 0x80 else 0x90) ||| p],
                        len := 2 }],
         Event.usleep 20000]) ∧
    (transactions (erase_slg env s nvm).2).length = 16 ∧
    s <<< 3 < 128 ∧
    (∀ p < 16, ((if nvm then 0x80 else 0x90) ||| p) % 16 = p ∧
      ((if nvm then 0x80 else 0x90) ||| p) / 16 = (if nvm then 0x8 else 0x9) ∧
      ((if nvm then 0x80 else 0x90) ||| p) < 256) := by
  have h := erase_pages_ok (erase_control_code s) nvm (List.range 16) env (by simpa using henv)
  have hcc := erase_control_code_eq s hs
  refine ⟨?_, ?_, ?_, hcc.2, ?_⟩
  · simp only [erase_slg]; exact h.1
  · simp only [erase_slg, bus_events]
    rw [h.2.1]
    apply List.flatMap_congr
    intro p hp
    simp only [erase_msgs, hcc.1, (erase_byte_facts nvm p (List.mem_range.mp hp)).1]
  · simp only [erase_slg, transactions]
    rw [h.2.2]; simp
  · intro p hp
    have hb := erase_byte_facts nvm p hp
    refine ⟨hb.2.1, hb.2.2, ?_⟩
    have := Nat.mod_lt ((if nvm then 0x80 else 0x90) ||| p) (by decide : 0 < 256)
    omega

theorem erase_slg_sequence_witness :
    ((1 : Nat) < 16 ∧ ∀ i < 16, 0 ≤ (env_ok i).ret) ∧
    (erase_slg env_ok 1 false).1 = true ∧
    bus_events (erase_slg env_ok 1 false).2 =
      (List.range 16).flatMap (fun p =>
        [Event.ioctl [{ addr := 1 <<< 3, flags := 0,
                        buf := [0xE3, (if false then 0x80 else 0x90) ||| p],
                        len := 2 }],
         Event.usleep 20000]) :=
  ⟨⟨by decide, by decide⟩,
   (erase_slg_sequence env_ok 1 false (by decide) (by decide)).1,
   (erase_slg_sequence env_ok 1 false (by decide) (by decide)).2.1⟩

/-! ## read_slg with a transport that succeeds -/

/-- C12: with a transport that succeeds on its 16 calls, `read_slg` returns success
and issues exactly 16 transactions, for pages 0, 1, ..., 15 in this order (and no
delay between them); each consists of two messages to the read/write control code:
a write (`flags = 0`) of the single byte `page << 4 = 16 * page`, then a read
(`flags = I2C_M_RD`) of 16 bytes. -/
theorem read_slg_sequence (env : Nat → IoctlResult) (s : Nat) (nvm : Bool)
    (henv : ∀ i < 16, 0 ≤ (env i).ret) :
    (read_slg env s nvm).1 = true ∧
    transactions (read_slg env s nvm).2 =
      (List.range 16).map (fun p =>
        [{ addr := rw_control_code s nvm, flags := 0, buf := [16 * p], len := 1 },
         { addr := rw_control_code s nvm, flags := I2C_M_RD, buf := [], len := 16 }]) ∧
    bus_events (read_slg env s nvm).2 =
      (List.range 16).map (fun p => Event.ioctl
        [{ addr := rw_control_code s nvm, flags := 0, buf := [16 * p], len := 1 },
         { addr := rw_control_code s nvm, flags := I2C_M_RD, buf := [], len := 16 }]) ∧
    (transactions (read_slg env s nvm).2).length = 16 := by
  have h := read_pages_ok (rw_control_code s nvm) (List.range 16) env (by simpa using henv)
  have hmsg : ∀ p ∈ List.range 16, read_msgs (rw_control_code s nvm) p =
      [{ addr := rw_control_code s nvm, flags := 0, buf := [16 * p], len := 1 },
       { addr := rw_control_code s nvm, flags := I2C_M_RD, buf := [], len := 16 }] := by
    intro p hp
    simp only [read_msgs, shl4_u8 p (List.mem_range.mp hp)]
  have e1 : transactions (read_slg env s nvm).2 =
      (List.range 16).map (read_msgs (rw_control_code s nvm)) := by
    simp only [read_slg, transactions]; exact h.2.2
  refine ⟨?_, ?_, ?_, ?_⟩
  · simp only [read_slg]; exact h.1
  · rw [e1]; exact List.map_congr_left hmsg
  · simp only [read_slg, bus_events]
    rw [h.2.1]
    apply List.map_congr_left
    intro p hp
    rw [hmsg p hp]
  · rw [e1]; simp

theorem read_slg_sequence_witness :
    (∀ i < 16, 0 ≤ (env_ok i).ret) ∧
    (read_slg env_ok 1 true).1 = true ∧
    (transactions (read_slg env_ok 1 true).2).length = 16 :=
  ⟨by decide, (read_slg_sequence env_ok 1 true (by decide)).1,
    (read_slg_sequence env_ok 1 true (by decide)).2.2.2⟩

/-! ## The page byte of the commands -/

/-- C13: for every page in 0..15 the one-byte payload of the read command and
byte 0 of the write command are the same value `page << 4 = 16 * page`, which is
below 256, so the conversion to `uint8_t` does not truncate it; page 0 gives `0x00`,
page 15 gives `0xF0`, and the low nibble of the erase command byte of page 15 is
`0xF` for both regions. -/
theorem page_command_byte (page : Nat) (hp : page < 16) (cc : Nat) (pg : List (List Nat)) :
    (read_msgs cc page).map (fun m => m.buf) = [[page <<< 4], []] ∧
    (write_buf pg page).head? = some (page <<< 4) ∧
    ((write_msgs cc pg page).map (fun m => m.buf.head?)) = [some (page <<< 4)] ∧
    page <<< 4 = 16 * page ∧ page <<< 4 < 256 ∧
    (read_msgs cc 0).map (fun m => m.buf) = [[0x00], []] ∧
    (write_buf pg 0).head? = some 0x00 ∧
    (read_msgs cc 15).map (fun m => m.buf) = [[0xF0], []] ∧
    (write_buf pg 15).head? = some 0xF0 ∧
    erase_cmd_byte true 15 % 16 = 0xF ∧ erase_cmd_byte false 15 % 16 = 0xF := by
  have h := shl4_u8 page hp
  have h2 : page <<< 4 = 16 * page := by
    simp only [Nat.shiftLeft_eq]; omega
  refine ⟨?_, ?_, ?_, h2, by omega, by simp [read_msgs], by rfl, by simp [read_msgs], by rfl,
    by decide, by decide⟩
  · simp only [read_msgs, h, List.map_cons, List.map_nil]; rw [h2]
  · simp only [write_buf, h, List.head?_cons]; rw [h2]
  · simp only [write_msgs, write_buf, h, List.map_cons, List.map_nil, List.head?_cons]
    rw [h2]

theorem page_command_byte_witness :
    (7 : Nat) < 16 ∧ (read_msgs 10 7).map (fun m => m.buf) = [[7 <<< 4], []] ∧
    (write_buf [] 7).head? = some (7 <<< 4) :=
  ⟨by decide, (page_command_byte 7 (by decide) 10 []).1,
    (page_command_byte 7 (by decide) 10 []).2.1⟩

/-! ## Erase twice -/

/-- C15: erase idempotence.  With a transport that succeeds, the 16 commands issued by
`erase_slg` are determined by the slave id and the region alone: any two runs with
the same slave id and region issue the same sequence of transactions (same address,
same 2-byte payload, same order), in particular a second run that follows the first
one immediately.  The slave id and the region are inputs of `erase_slg`, which
returns nothing but its result and its trace. -/
theorem erase_twice_same_commands (env : Nat → IoctlResult) (s : Nat) (nvm : Bool)
    (henv : ∀ i < 32, 0 ≤ (env i).ret) :
    (erase_slg env s nvm).1 = true ∧
    (erase_slg (shift env (transactions (erase_slg env s nvm).2).length) s nvm).1 = true ∧
    transactions (erase_slg (shift env (transactions (erase_slg env s nvm).2).length) s nvm).2 =
      transactions (erase_slg env s nvm).2 ∧
    transactions (erase_slg env s nvm).2 =
      (List.range 16).map (erase_msgs (erase_control_code s) nvm) ∧
    (transactions (erase_slg env s nvm).2).length = 16 ∧
    (∀ env2 : Nat → IoctlResult, (∀ i < 16, 0 ≤ (env2 i).ret) →
      transactions (erase_slg env2 s nvm).2 = transactions (erase_slg env s nvm).2) := by
  have key : ∀ e : Nat → IoctlResult, (∀ i < 16, 0 ≤ (e i).ret) →
      (erase_slg e s nvm).1 = true ∧
      transactions (erase_slg e s nvm).2 =
        (List.range 16).map (erase_msgs (erase_control_code s) nvm) := by
    intro e he
    have h := erase_pages_ok (erase_control_code s) nvm (List.range 16) e (by simpa using he)
    simp only [erase_slg, transactions]
    exact ⟨h.1, h.2.2⟩
  have h1 := key env (fun i hi => henv i (by omega))
  have hlen : (transactions (erase_slg env s nvm).2).length = 16 := by
    rw [h1.2]; simp
  have h2 := key (shift env 16) (fun i hi => henv (i + 16) (by omega))
  rw [hlen]
  refine ⟨h1.1, h2.1, ?_, h1.2, rfl, ?_⟩
  · rw [h2.2, h1.2]
  · intro env2 h
    rw [(key env2 h).2, h1.2]

theorem erase_twice_same_commands_witness :
    (∀ i < 32, 0 ≤ (env_ok i).ret) ∧
    transactions (erase_slg (shift env_ok (transactions (erase_slg env_ok 1 true).2).length)
        1 true).2 =
      transactions (erase_slg env_ok 1 true).2 :=
  ⟨by decide, (erase_twice_same_commands env_ok 1 true (by decide)).2.2.1⟩

/-! ## The positions the decoder reads -/

/-- C17: for every page `p` and offset `o` in 0..15 the two indices read by the
decoder, `p*44+9+2*o` and `p*44+9+2*o+1`, lie in `[p*44+9, p*44+40]`, i.e. at record
offsets 9..40 of record `p`; the fields of distinct pairs `(p, o)` share no index; the
largest index read is 700 (page 15, offset 15), so in a buffer of length at least 701
every index read is in range; and the decoded pages depend only on the bytes at
record offsets 9..40: two buffers that agree there decode alike, whatever stands at
record offsets 0..8 and 41..43. -/
theorem decode_positions :
    (∀ p o : Nat, p < 16 → o < 16 →
      p * 44 + 9 ≤ p * 44 + 9 + 2 * o ∧ p * 44 + 9 + 2 * o + 1 ≤ p * 44 + 40 ∧
      p * 44 + 9 + 2 * o + 1 ≤ 700) ∧
    (∀ p o p2 o2 : Nat, p < 16 → o < 16 → p2 < 16 → o2 < 16 → (p, o) ≠ (p2, o2) →
      p * 44 + 9 + 2 * o ≠ p2 * 44 + 9 + 2 * o2 ∧
      p * 44 + 9 + 2 * o ≠ p2 * 44 + 9 + 2 * o2 + 1 ∧
      p * 44 + 9 + 2 * o + 1 ≠ p2 * 44 + 9 + 2 * o2 ∧
      p * 44 + 9 + 2 * o + 1 ≠ p2 * 44 + 9 + 2 * o2 + 1) ∧
    15 * 44 + 9 + 2 * 15 + 1 = 700 ∧
    (∀ bytes : List Nat, 701 ≤ bytes.length → ∀ p o : Nat, p < 16 → o < 16 →
      p * 44 + 9 + 2 * o + 1 < bytes.length ∧
      page_byte (decode_pages bytes) p o =
        (strtol16 (snprintf_cc (bytes.getD (p * 44 + 9 + 2 * o) 0 % 256)
          (bytes.getD (p * 44 + 9 + 2 * o + 1) 0 % 256)) % 256).toNat) ∧
    (∀ bytes bytes2 : List Nat,
      (∀ p r : Nat, p < 16 → 9 ≤ r → r ≤ 40 →
        buf_at bytes (p * 44 + r) = buf_at bytes2 (p * 44 + r)) →
      decode_pages bytes = decode_pages bytes2) := by
  refine ⟨?_, ?_, by decide, ?_, ?_⟩
  · intro p o hp ho
    omega
  · intro p o p2 o2 hp ho hp2 ho2 hne
    have hne2 : p ≠ p2 ∨ o ≠ o2 := by
      by_contra hc
      push_neg at hc
      exact hne (by rw [hc.1, hc.2])
    omega
  · intro bytes hlen p o hp ho
    refine ⟨by omega, ?_⟩
    rw [page_byte_decode_pages bytes p o hp ho]
    rfl
  · intro bytes bytes2 h
    unfold decode_pages
    apply List.map_congr_left
    intro p hp
    apply List.map_congr_left
    intro o ho
    have hp16 := List.mem_range.mp hp
    have ho16 := List.mem_range.mp ho
    have h1 := h p (9 + 2 * o) hp16 (by omega) (by omega)
    have h2 := h p (9 + 2 * o + 1) hp16 (by omega) (by omega)
    have e1 : p * 44 + (9 + 2 * o) = p * 44 + 9 + 2 * o := by omega
    have e2 : p * 44 + (9 + 2 * o + 1) = p * 44 + 9 + 2 * o + 1 := by omega
    rw [e1] at h1
    rw [e2] at h2
    unfold decode_byte
    simp only [h1, h2]


theorem decode_positions_witness :
    701 ≤ (List.replicate 701 65).length ∧
    15 * 44 + 9 + 2 * 15 + 1 < (List.replicate 701 65).length :=
  ⟨by rw [List.length_replicate],
   (decode_positions.2.2.2.1 (List.replicate 701 65) (by rw [List.length_replicate]) 15 15
      (by decide) (by decide)).1⟩

/-! ## The erase command byte and the bus addresses -/

theorem erase_cmd_byte_eq (nvm : Bool) (p : Nat) :
    erase_cmd_byte nvm p = ((if nvm then 0x80 else 0x90) ||| p) % 256 := by
  simp [erase_cmd_byte, erase_msgs]

/-- C18: over both regions and pages 0..15 the erase command byte
`(0x80 or 0x90) | page` is injective in (region, page): two erase commands have the
same second byte only if they target the same region and the same page.  The page
is the low nibble of the byte, the region is its bit 4 (clear for NVM, set for
EEPROM), and bit 7 is always set. -/
theorem erase_cmd_byte_injective (nvm nvm2 : Bool) (p p2 : Nat) (hp : p < 16) (hp2 : p2 < 16) :
    (erase_cmd_byte nvm p = erase_cmd_byte nvm2 p2 → nvm = nvm2 ∧ p = p2) ∧
    erase_cmd_byte nvm p = (if nvm then 0x80 else 0x90) ||| p ∧
    erase_cmd_byte nvm p % 16 = p ∧
    (erase_cmd_byte nvm p).testBit 4 = !nvm ∧
    (erase_cmd_byte nvm p).testBit 7 = true ∧
    erase_cmd_byte nvm p / 16 % 2 = (if nvm then 0 else 1) ∧
    erase_cmd_byte nvm p / 128 = 1 := by
  have f1 := erase_byte_facts nvm p hp
  have f2 := erase_byte_facts nvm2 p2 hp2
  have e1 := erase_cmd_byte_eq nvm p
  have e2 := erase_cmd_byte_eq nvm2 p2
  rw [f1.1] at e1
  rw [f2.1] at e2
  have h4 : (erase_cmd_byte nvm p).testBit 4 = !nvm ∧ (erase_cmd_byte nvm p).testBit 7 = true := by
    rw [e1]
    interval_cases p <;> cases nvm <;> decide
  refine ⟨?_, e1, ?_, h4.1, h4.2, ?_, ?_⟩
  · intro h
    rw [e1, e2] at h
    have hq : ((if nvm then 0x80 else 0x90) ||| p) / 16 =
        ((if nvm2 then 0x80 else 0x90) ||| p2) / 16 := by rw [h]
    have hr : ((if nvm then 0x80 else 0x90) ||| p) % 16 =
        ((if nvm2 then 0x80 else 0x90) ||| p2) % 16 := by rw [h]
    rw [f1.2.1, f2.2.1] at hr
    rw [f1.2.2, f2.2.2] at hq
    refine ⟨?_, hr⟩
    cases nvm <;> cases nvm2 <;> simp at hq ⊢
  · rw [e1]; exact f1.2.1
  · rw [e1, f1.2.2]; cases nvm <;> rfl
  · rw [e1]
    have := f1.2.2
    cases nvm <;> simp at this ⊢ <;> omega

theorem erase_cmd_byte_injective_witness :
    ((3 : Nat) < 16 ∧ (3 : Nat) < 16) ∧
    (erase_cmd_byte true 3 = erase_cmd_byte true 3 → true = true ∧ 3 = 3) ∧
    erase_cmd_byte false 3 % 16 = 3 :=
  ⟨⟨by decide, by decide⟩,
   (erase_cmd_byte_injective true true 3 3 (by decide) (by decide)).1,
   (erase_cmd_byte_injective false false 3 3 (by decide) (by decide)).2.2.1⟩

theorem bus_address_eq (s : Nat) (hs : s < 16) (k : AccessKind) :
    bus_address s k =
      8 * s + (match k with
        | AccessKind.erase => 0
        | AccessKind.rw_nvm => 2
        | AccessKind.rw_eeprom => 3) := by
  interval_cases s <;> cases k <;> decide

/-- C19: bus addresses never collide.  For slave ids `s`, `s2` in 0..15 the three
addresses derived from `s` (erase: `s << 3`, NVM read/write: `(s << 3) | 2`, EEPROM
read/write: `(s << 3) | 3`) are pairwise distinct, an address derived from `s` equals
an address derived from `s2` only if `s = s2` and the access kind is the same, and
the slave id is the address shifted right by 3. -/
theorem bus_address_injective (s s2 : Nat) (hs : s < 16) (hs2 : s2 < 16) (k k2 : AccessKind) :
    (bus_address s k = bus_address s2 k2 → s = s2 ∧ k = k2) ∧
    bus_address s k >>> 3 = s ∧
    bus_address s AccessKind.erase = s <<< 3 ∧
    bus_address s AccessKind.rw_nvm = (s <<< 3) ||| 2 ∧
    bus_address s AccessKind.rw_eeprom = (s <<< 3) ||| 3 ∧
    bus_address s AccessKind.erase ≠ bus_address s AccessKind.rw_nvm ∧
    bus_address s AccessKind.erase ≠ bus_address s AccessKind.rw_eeprom ∧
    bus_address s AccessKind.rw_nvm ≠ bus_address s AccessKind.rw_eeprom ∧
    bus_address s k < 128 := by
  have e1 := bus_address_eq s hs k
  have e2 := bus_address_eq s2 hs2 k2
  have a0 := bus_address_eq s hs AccessKind.erase
  have a1 := bus_address_eq s hs AccessKind.rw_nvm
  have a2 := bus_address_eq s hs AccessKind.rw_eeprom
  have c0 := (erase_control_code_eq s hs).1
  have c1 := (rw_control_code_eq s hs true).1
  have c2 := (rw_control_code_eq s hs false).1
  simp only at a0 a1 a2
  refine ⟨?_, ?_, c0, c1, c2, by omega, by omega, by omega, ?_⟩
  · intro h
    rw [e1, e2] at h
    cases k <;> cases k2 <;> simp only at h <;>
      first
        | exact ⟨by omega, rfl⟩
        | (exfalso; omega)
  · rw [e1, Nat.shiftRight_eq_div_pow]
    cases k <;> simp only <;> omega
  · rw [e1]
    cases k <;> simp only <;> omega

theorem bus_address_injective_witness :
    ((1 : Nat) < 16 ∧ (2 : Nat) < 16) ∧
    (bus_address 1 AccessKind.rw_nvm = bus_address 2 AccessKind.erase →
      1 = 2 ∧ AccessKind.rw_nvm = AccessKind.erase) ∧
    bus_address 1 AccessKind.rw_nvm >>> 3 = 1 :=
  ⟨⟨by decide, by decide⟩,
   (bus_address_injective 1 2 (by decide) (by decide) AccessKind.rw_nvm AccessKind.erase).1,
   (bus_address_injective 1 2 (by decide) (by decide) AccessKind.rw_nvm AccessKind.erase).2.1⟩

/-! ## When a page loop succeeds -/

theorem erase_pages_true (cc : Nat) (nvm : Bool) (pages : List Nat) :
    ∀ env : Nat → IoctlResult, (erase_pages cc nvm env pages).1 = true →
      ∀ i < pages.length, 0 ≤ (env i).ret := by
  induction pages with
  | nil => intro env _ i hi; simp at hi
  | cons page rest ih =>
    intro env h i hi
    unfold erase_pages at h
    by_cases h0 : (env 0).ret < 0
    · simp [h0] at h
    · simp only [h0, if_false] at h
      cases i with
      | zero => omega
      | succ j => exact ih (shift env 1) h j (by simpa using hi)

theorem write_pages_true (cc : Nat) (pg : List (List Nat)) (pages : List Nat) :
    ∀ env : Nat → IoctlResult, (write_pages cc pg env pages).1 = true →
      ∀ i < pages.length, 0 ≤ (env i).ret := by
  induction pages with
  | nil => intro env _ i hi; simp at hi
  | cons page rest ih =>
    intro env h i hi
    unfold write_pages at h
    by_cases h0 : (env 0).ret < 0
    · simp [h0] at h
    · simp only [h0, if_false] at h
      cases i with
      | zero => omega
      | succ j => exact ih (shift env 1) h j (by simpa using hi)

theorem read_pages_true (cc : Nat) (pages : List Nat) :
    ∀ env : Nat → IoctlResult, (read_pages cc env pages).1 = true →
      ∀ i < pages.length, 0 ≤ (env i).ret := by
  induction pages with
  | nil => intro env _ i hi; simp at hi
  | cons page rest ih =>
    intro env h i hi
    unfold read_pages at h
    by_cases h0 : (env 0).ret < 0
    · simp [h0] at h
    · simp only [h0, if_false] at h
      cases i with
      | zero => omega
      | succ j => exact ih (shift env 1) h j (by simpa using hi)

theorem erase_slg_true_iff (env : Nat → IoctlResult) (s : Nat) (nvm : Bool) :
    ((erase_slg env s nvm).1 = true ↔ ∀ i < 16, 0 ≤ (env i).ret) ∧
    ((erase_slg env s nvm).1 = true → (transactions (erase_slg env s nvm).2).length = 16) := by
  have hok := erase_pages_ok (erase_control_code s) nvm (List.range 16) env
  have hiff : (erase_slg env s nvm).1 = true ↔ ∀ i < 16, 0 ≤ (env i).ret := by
    constructor
    · intro h
      have := erase_pages_true (erase_control_code s) nvm (List.range 16) env h
      simpa using this
    · intro h
      exact (hok (by simpa using h)).1
  refine ⟨hiff, ?_⟩
  intro h
  have h2 := (hok (by simpa using hiff.mp h)).2.2
  simp only [erase_slg, transactions]
  rw [h2]; simp

theorem write_slg_true_iff (env : Nat → IoctlResult) (s : Nat) (file : HexFile) (nvm : Bool) :
    ((write_slg env s file nvm).1 = true ↔
      (∃ bytes, file = HexFile.mapped bytes) ∧ ∀ i < 16, 0 ≤ (env i).ret) ∧
    ((write_slg env s file nvm).1 = true → (transactions (write_slg env s file nvm).2).length = 16) := by
  cases file with
  | mapped bytes =>
    have hiff : (write_slg env s (HexFile.mapped bytes) nvm).1 = true ↔
        ∀ i < 16, 0 ≤ (env i).ret := by
      constructor
      · intro h
        have := write_pages_true (rw_control_code s nvm) (decode_pages bytes) (List.range 16)
          env h
        simpa using this
      · intro h
        exact (write_slg_mapped_ok env s bytes nvm h).1
    refine ⟨?_, ?_⟩
    · rw [hiff]
      constructor
      · intro h; exact ⟨⟨bytes, rfl⟩, h⟩
      · intro h; exact h.2
    · intro h
      rw [(write_slg_mapped_ok env s bytes nvm (hiff.mp h)).2.2]; simp
  | _ => simp [write_slg]

theorem read_slg_true_iff (env : Nat → IoctlResult) (s : Nat) (nvm : Bool) :
    (read_slg env s nvm).1 = true ↔ ∀ i < 16, 0 ≤ (env i).ret := by
  constructor
  · intro h
    have := read_pages_true (rw_control_code s nvm) (List.range 16) env h
    simpa using this
  · intro h
    exact (read_pages_ok (rw_control_code s nvm) (List.range 16) env (by simpa using h)).1

/-! ## The phases of the write run -/

theorem main_dispatch_write (env : Nat → IoctlResult) (s : Nat) (erase : Bool) (file : HexFile)
    (nvm : Bool) :
    main_dispatch env s false true erase file nvm =
      (if (erase_slg env s nvm).1 = true ∧ (write_slg (shift env 16) s file nvm).1 = true ∧
          (read_slg (shift (shift env 16) 16) s nvm).1 = true then 0 else 1,
       (erase_slg env s nvm).2 ++
        (if (erase_slg env s nvm).1 = true then
          [Event.printf Printf.waiting_for_powercycle, Event.getchar] ++
            (write_slg (shift env 16) s file nvm).2 ++
            (if (write_slg (shift env 16) s file nvm).1 = true then
              [Event.printf Printf.waiting_for_powercycle, Event.getchar] ++
                (read_slg (shift (shift env 16) 16) s nvm).2
             else [])
         else [])) := by
  unfold main_dispatch
  by_cases he : (erase_slg env s nvm).1 = true
  · have hlen := (erase_slg_true_iff env s nvm).2 he
    simp only [hlen, he]
    by_cases hw : (write_slg (shift env 16) s file nvm).1 = true
    · have hlen2 := (write_slg_true_iff (shift env 16) s file nvm).2 hw
      simp only [hlen2, hw]
      by_cases hr : (read_slg (shift (shift env 16) 16) s nvm).1 = true
      · simp [hr]
      · simp [hr]
    · simp [hw]
  · simp [he]

/-- C16: in a run where write is selected and read is not, the trace of the dispatch
is the trace of `erase_slg`, then, only if the erase returned success, the wait for
the operator (`getchar`) and the trace of `write_slg`, then, only if the write
returned success, a second wait for the operator and the trace of the verification
`read_slg`.  The erase returns success exactly when its 16 transactions succeed and
the write exactly when the file is mapped and its 16 transactions succeed; so the
write phase issues no transaction unless all 16 erase transactions succeeded, and
the read phase none unless all 16 write transactions succeeded. -/
theorem write_run_phases (env : Nat → IoctlResult) (s : Nat) (erase : Bool) (file : HexFile)
    (nvm : Bool) :
    (main_dispatch env s false true erase file nvm).2 =
      (erase_slg env s nvm).2 ++
        (if (erase_slg env s nvm).1 = true then
          [Event.printf Printf.waiting_for_powercycle, Event.getchar] ++
            (write_slg (shift env 16) s file nvm).2 ++
            (if (write_slg (shift env 16) s file nvm).1 = true then
              [Event.printf Printf.waiting_for_powercycle, Event.getchar] ++
                (read_slg (shift (shift env 16) 16) s nvm).2
             else [])
         else []) ∧
    transactions (main_dispatch env s false true erase file nvm).2 =
      transactions (erase_slg env s nvm).2 ++
        (if (erase_slg env s nvm).1 = true then
          transactions (write_slg (shift env 16) s file nvm).2 ++
            (if (write_slg (shift env 16) s file nvm).1 = true then
              transactions (read_slg (shift (shift env 16) 16) s nvm).2
             else [])
         else []) ∧
    ((erase_slg env s nvm).1 = true ↔ ∀ i < 16, 0 ≤ (env i).ret) ∧
    ((write_slg (shift env 16) s file nvm).1 = true ↔
      (∃ bytes, file = HexFile.mapped bytes) ∧ ∀ i < 16, 0 ≤ (env (i + 16)).ret) ∧
    ((erase_slg env s nvm).1 = true →
      (transactions (erase_slg env s nvm).2).length = 16) ∧
    ((write_slg (shift env 16) s file nvm).1 = true →
      (transactions (write_slg (shift env 16) s file nvm).2).length = 16) ∧
    ((∃ i < 16, (env i).ret < 0) →
      transactions (main_dispatch env s false true erase file nvm).2 =
        transactions (erase_slg env s nvm).2) ∧
    ((∀ i < 16, 0 ≤ (env i).ret) → (∃ i < 16, (env (i + 16)).ret < 0) →
      transactions (main_dispatch env s false true erase file nvm).2 =
        transactions (erase_slg env s nvm).2 ++
          transactions (write_slg (shift env 16) s file nvm).2) := by
  have hm := main_dispatch_write env s erase file nvm
  have he := erase_slg_true_iff env s nvm
  have hw := write_slg_true_iff (shift env 16) s file nvm
  have htr : transactions (main_dispatch env s false true erase file nvm).2 =
      transactions (erase_slg env s nvm).2 ++
        (if (erase_slg env s nvm).1 = true then
          transactions (write_slg (shift env 16) s file nvm).2 ++
            (if (write_slg (shift env 16) s file nvm).1 = true then
              transactions (read_slg (shift (shift env 16) 16) s nvm).2
             else [])
         else []) := by
    rw [hm]
    by_cases h1 : (erase_slg env s nvm).1 = true
    · by_cases h2 : (write_slg (shift env 16) s file nvm).1 = true
      · simp [h1, h2, transactions_append, transactions]
      · simp [h1, h2, transactions_append, transactions]
    · simp [h1]
  refine ⟨by rw [hm], htr, he.1, hw.1, he.2, hw.2, ?_, ?_⟩
  · rintro ⟨i, hi, hneg⟩
    have h1 : ¬ (erase_slg env s nvm).1 = true := by
      intro h
      have := he.1.mp h i hi
      omega
    rw [htr]
    simp [h1]
  · intro hall
    rintro ⟨i, hi, hneg⟩
    have h1 : (erase_slg env s nvm).1 = true := he.1.mpr hall
    have h2 : ¬ (write_slg (shift env 16) s file nvm).1 = true := by
      intro h
      have := (hw.1.mp h).2 i hi
      simp only [shift] at this
      omega
    rw [htr]
    simp [h1, h2]

theorem write_run_phases_witness :
    (∃ i < 16, (env_fail_at 3 i).ret < 0) ∧
    transactions (main_dispatch (env_fail_at 3) 1 false true false HexFile.open_failed true).2 =
      transactions (erase_slg (env_fail_at 3) 1 true).2 :=
  ⟨⟨3, by decide, by decide⟩,
   (write_run_phases (env_fail_at 3) 1 false HexFile.open_failed true).2.2.2.2.2.2.1
      ⟨3, by decide, by decide⟩⟩

/-! ## The exit code of main -/

theorem main_dispatch_exit (env : Nat → IoctlResult) (s : Nat) (read write erase : Bool)
    (file : HexFile) (nvm : Bool) :
    ((main_dispatch env s read write erase file nvm).1 = 0 ∨
      (main_dispatch env s read write erase file nvm).1 = 1) ∧
    ((main_dispatch env s read write erase file nvm).1 = 0 ↔
      (if read = true then (read_slg env s nvm).1 = true
       else if write = true then
        (erase_slg env s nvm).1 = true ∧ (write_slg (shift env 16) s file nvm).1 = true ∧
          (read_slg (shift (shift env 16) 16) s nvm).1 = true
       else if erase = true then (erase_slg env s nvm).1 = true
       else False)) ∧
    (read = false → write = false → erase = false →
      (main_dispatch env s read write erase file nvm).1 = 1 ∧
      (main_dispatch env s read write erase file nvm).2 = []) := by
  cases read with
  | true =>
    unfold main_dispatch
    cases h : (read_slg env s nvm).1 <;> simp [h]
  | false =>
    cases write with
    | true =>
      rw [main_dispatch_write]
      by_cases h : (erase_slg env s nvm).1 = true ∧
          (write_slg (shift env 16) s file nvm).1 = true ∧
          (read_slg (shift (shift env 16) 16) s nvm).1 = true
      · simp [h]
      · simp only [h, if_false]
        simp
    | false =>
      cases erase with
      | true =>
        unfold main_dispatch
        cases h : (erase_slg env s nvm).1 <;> simp [h]
      | false =>
        unfold main_dispatch
        simp

theorem getopt_loop_flags (argv0 : List Nat) (opts : List GetoptResult) :
    ∀ o o2 : Options, getopt_loop argv0 o opts = Except.ok o2 →
      (o2.read = true ↔ o.read = true ∨ GetoptResult.r ∈ opts) ∧
      (o2.erase = true ↔ o.erase = true ∨ GetoptResult.e ∈ opts) ∧
      (o2.write = true ↔ o.write = true ∨ ∃ f, GetoptResult.w f ∈ opts) ∧
      (o.i2c_slave_addr < 16 → o2.i2c_slave_addr < 16) := by
  induction opts with
  | nil =>
    intro o o2 h
    simp only [getopt_loop, Except.ok.injEq] at h
    subst h
    simp
  | cons c rest ih =>
    intro o o2 h
    cases c with
    | e =>
      simp only [getopt_loop] at h
      have := ih _ _ h
      simpa using this
    | r =>
      simp only [getopt_loop] at h
      have := ih _ _ h
      simpa using this
    | w f =>
      simp only [getopt_loop] at h
      have := ih _ _ h
      simp only [List.mem_cons, reduceCtorEq, false_or, GetoptResult.w.injEq] at this ⊢
      refine ⟨this.1, this.2.1, ?_, this.2.2.2⟩
      rw [this.2.2.1]
      constructor
      · intro _
        exact Or.inr ⟨f, Or.inl rfl⟩
      · intro _
        exact Or.inl trivial
    | t a =>
      simp only [getopt_loop] at h
      split_ifs at h
      · have := ih _ _ h
        simpa using this
      · have := ih _ _ h
        simpa using this
    | i a =>
      simp only [getopt_loop] at h
      split_ifs at h with hc
      have := ih _ _ h
      simp only [List.mem_cons, reduceCtorEq, false_or] at this ⊢
      refine ⟨this.1, this.2.1, this.2.2.1, ?_⟩
      intro _
      apply this.2.2.2
      push_neg at hc
      have := hc.2
      omega
    | missing_argument c => simp [getopt_loop] at h
    | unknown_option c => simp [getopt_loop] at h

theorem getopt_loop_error (argv0 : List Nat) (opts : List GetoptResult) :
    ∀ (o : Options) (out : List Event), getopt_loop argv0 o opts = Except.error out →
      transactions out = [] ∧ (∀ n, Event.open_i2c n ∉ out) ∧
      ∃ p, out = [Event.printf p, Event.printf (Printf.usage argv0)] := by
  induction opts with
  | nil => intro o out h; simp [getopt_loop] at h
  | cons c rest ih =>
    intro o out h
    cases c with
    | e => simp only [getopt_loop] at h; exact ih _ _ h
    | r => simp only [getopt_loop] at h; exact ih _ _ h
    | w f => simp only [getopt_loop] at h; exact ih _ _ h
    | t a =>
      simp only [getopt_loop] at h
      split_ifs at h
      · exact ih _ _ h
      · exact ih _ _ h
      · simp only [Except.error.injEq] at h
        subst h
        exact ⟨by simp [transactions], by simp, ⟨_, rfl⟩⟩
    | i a =>
      simp only [getopt_loop] at h
      split_ifs at h
      · simp only [Except.error.injEq] at h
        subst h
        exact ⟨by simp [transactions], by simp, ⟨_, rfl⟩⟩
      · exact ih _ _ h
    | missing_argument c =>
      simp only [getopt_loop, Except.error.injEq] at h
      subst h
      exact ⟨by simp [transactions], by simp, ⟨_, rfl⟩⟩
    | unknown_option c =>
      simp only [getopt_loop, Except.error.injEq] at h
      subst h
      exact ⟨by simp [transactions], by simp, ⟨_, rfl⟩⟩

/-- The exit code of `main` is 0 or 1, and it is 0 exactly when the option loop
accepts the options, the bus argument is present, the bus opens, and the selected
operation reports success: `read_slg` when `-r` is given; otherwise, when `-w` is
given, the erase, then the write, then the verification read, all three; otherwise
`erase_slg` when `-e` is given.  A run in which none of `-r`, `-w`, `-e` is given exits
with code 1 without a transaction, and so does every run that the option loop
stops, that has no bus argument or whose bus does not open.  Which options the loop
stops is not part of this lemma. -/
theorem exit_code (argv0 : List Nat) (opts : List GetoptResult) (args : List (List Nat))
    (bus_opens : Bool) (fs : List Nat → HexFile) (env : Nat → IoctlResult) :
    ((main argv0 opts args bus_opens fs env).1 = 0 ∨
      (main argv0 opts args bus_opens fs env).1 = 1) ∧
    ((main argv0 opts args bus_opens fs env).1 = 0 ↔
      ∃ o arg tl, getopt_loop argv0 initial_options opts = Except.ok o ∧
        args = arg :: tl ∧ bus_opens = true ∧
        (if o.read = true then (read_slg env o.i2c_slave_addr o.target_nvm).1 = true
         else if o.write = true then
          (erase_slg env o.i2c_slave_addr o.target_nvm).1 = true ∧
          (write_slg (shift env 16) o.i2c_slave_addr (fs o.filename) o.target_nvm).1 = true ∧
          (read_slg (shift (shift env 16) 16) o.i2c_slave_addr o.target_nvm).1 = true
         else if o.erase = true then (erase_slg env o.i2c_slave_addr o.target_nvm).1 = true
         else False)) ∧
    (GetoptResult.r ∉ opts → GetoptResult.e ∉ opts → (∀ f, GetoptResult.w f ∉ opts) →
      (main argv0 opts args bus_opens fs env).1 = 1 ∧
      transactions (main argv0 opts args bus_opens fs env).2 = []) ∧
    ((∀ o, getopt_loop argv0 initial_options opts ≠ Except.ok o) ∨ args = [] ∨
        bus_opens = false →
      (main argv0 opts args bus_opens fs env).1 = 1 ∧
      transactions (main argv0 opts args bus_opens fs env).2 = []) := by
  unfold main
  cases hg : getopt_loop argv0 initial_options opts with
  | error out =>
    have herr := getopt_loop_error argv0 opts _ _ hg
    simp [herr.1]
  | ok o =>
    have hfl := getopt_loop_flags argv0 opts _ _ hg
    cases args with
    | nil => simp [transactions]
    | cons arg tl =>
      cases bus_opens with
      | false => simp [transactions]
      | true =>
        have hd := main_dispatch_exit env o.i2c_slave_addr o.read o.write o.erase
          (fs o.filename) o.target_nvm
        simp only [if_true, Except.ok.injEq, List.cons.injEq, and_true, exists_and_left,
          exists_eq_left', transactions, ne_eq, forall_eq', not_true_eq_false, reduceCtorEq,
          or_self, false_implies]
        refine ⟨hd.1, ?_, ?_⟩
        · rw [hd.2.1]
          simp
        · intro hr he hw
          have h1 : o.read = false := by
            have := hfl.1
            simp only [initial_options, hr, or_self, Bool.false_eq_true, iff_false] at this
            simpa using this
          have h2 : o.erase = false := by
            have := hfl.2.1
            simp only [initial_options, he, or_self, Bool.false_eq_true, iff_false] at this
            simpa using this
          have h3 : o.write = false := by
            have := hfl.2.2.1
            simp only [initial_options, hw, exists_false, or_self, Bool.false_eq_true,
              iff_false] at this
            simpa using this
          have := hd.2.2 h1 h3 h2
          rw [this.2]
          exact ⟨this.1, rfl⟩

theorem exit_code_witness :
    (GetoptResult.r ∉ [GetoptResult.t [110, 118, 109]] ∧
      GetoptResult.e ∉ [GetoptResult.t [110, 118, 109]] ∧
      ∀ f, GetoptResult.w f ∉ [GetoptResult.t [110, 118, 109]]) ∧
    (main [112] [GetoptResult.t [110, 118, 109]] [[49]] true
      (fun _ => HexFile.open_failed) env_ok).1 = 1 ∧
    transactions (main [112] [GetoptResult.t [110, 118, 109]] [[49]] true
      (fun _ => HexFile.open_failed) env_ok).2 = [] :=
  ⟨⟨by decide, by decide, by simp⟩,
   (exit_code [112] [GetoptResult.t [110, 118, 109]] [[49]] true
      (fun _ => HexFile.open_failed) env_ok).2.2.1 (by decide) (by decide) (by simp)⟩

/-! ## The slave id option -/

theorem slave_id_fits (argv0 : List Nat) (opts : List GetoptResult) (o : Options)
    (h : getopt_loop argv0 initial_options opts = Except.ok o) : o.i2c_slave_addr < 16 :=
  (getopt_loop_flags argv0 opts _ _ h).2.2.2 (by decide)

/-- C11, as the code has it: the run `prog -i 256 -e 1`.  The value of `-i` is the
integer 256, outside 0..15, but `main` stores it in the `uint8_t i2c_slave_addr`
before it compares, so the value compared is 0: the option is accepted, the bus
`/dev/i2c-1` is opened, the 16 erase transactions go to address `0 << 3` (slave id 0)
and the exit code is 0.  The same holds for `-i -255`, taken as slave id 1, whereas `-i 16` is
rejected with exit code 1 before the bus is opened. -/
theorem slave_id_256_accepted :
    atoi [50, 53, 54] = 256 ∧
    (main [112] [GetoptResult.i [50, 53, 54], GetoptResult.e] [[49]] true
      (fun _ => HexFile.open_failed) env_ok).1 = 0 ∧
    Event.open_i2c [47, 100, 101, 118, 47, 105, 50, 99, 45, 49] ∈
      (main [112] [GetoptResult.i [50, 53, 54], GetoptResult.e] [[49]] true
        (fun _ => HexFile.open_failed) env_ok).2 ∧
    transactions (main [112] [GetoptResult.i [50, 53, 54], GetoptResult.e] [[49]] true
      (fun _ => HexFile.open_failed) env_ok).2 = (List.range 16).map (erase_msgs (0 <<< 3) true) ∧
    atoi [45, 50, 53, 53] = -255 ∧
    (main [112] [GetoptResult.i [45, 50, 53, 53], GetoptResult.e] [[49]] true
      (fun _ => HexFile.open_failed) env_ok).1 = 0 ∧
    transactions (main [112] [GetoptResult.i [45, 50, 53, 53], GetoptResult.e] [[49]] true
      (fun _ => HexFile.open_failed) env_ok).2 = (List.range 16).map (erase_msgs (1 <<< 3) true) ∧
    main [112] [GetoptResult.i [49, 54], GetoptResult.e] [[49]] true
      (fun _ => HexFile.open_failed) env_ok =
      (1, [Event.printf Printf.error_id, Event.printf (Printf.usage [112])]) := by
  decide

/-- C14, as the code has it: the run `prog -i 256 -e 1`.  The slave id 256 is outside
0..15, a validation failure by the program's own message (`id must be in the range
0-15`), yet no error line is printed and the exit code is 0, not 1, after the 16
erase transactions; the run `prog -i 271 -r 1` likewise exits with 0 after 16 read
transactions to the address of slave id 15, whereas `prog -i 16 -e 1` exits with 1
without a transaction. -/
theorem invalid_slave_id_exits_zero :
    atoi [50, 53, 54] = 256 ∧
    ¬ ((0 : Int) ≤ atoi [50, 53, 54] ∧ atoi [50, 53, 54] ≤ 15) ∧
    (main [112] [GetoptResult.i [50, 53, 54], GetoptResult.e] [[49]] true
      (fun _ => HexFile.open_failed) env_ok).1 = 0 ∧
    (main [112] [GetoptResult.i [50, 53, 54], GetoptResult.e] [[49]] true
      (fun _ => HexFile.open_failed) env_ok).1 ≠ 1 ∧
    error_lines (console (main [112] [GetoptResult.i [50, 53, 54], GetoptResult.e] [[49]] true
      (fun _ => HexFile.open_failed) env_ok).2) = [] ∧
    (transactions (main [112] [GetoptResult.i [50, 53, 54], GetoptResult.e] [[49]] true
      (fun _ => HexFile.open_failed) env_ok).2).length = 16 ∧
    atoi [50, 55, 49] = 271 ∧
    ¬ ((0 : Int) ≤ atoi [50, 55, 49] ∧ atoi [50, 55, 49] ≤ 15) ∧
    (main [112] [GetoptResult.i [50, 55, 49], GetoptResult.r] [[49]] true
      (fun _ => HexFile.open_failed) env_ok).1 = 0 ∧
    transactions (main [112] [GetoptResult.i [50, 55, 49], GetoptResult.r] [[49]] true
      (fun _ => HexFile.open_failed) env_ok).2 =
      (List.range 16).map (read_msgs ((15 <<< 3) ||| 2)) ∧
    (main [112] [GetoptResult.i [49, 54], GetoptResult.e] [[49]] true
      (fun _ => HexFile.open_failed) env_ok).1 = 1 ∧
    transactions (main [112] [GetoptResult.i [49, 54], GetoptResult.e] [[49]] true
      (fun _ => HexFile.open_failed) env_ok).2 = [] := by
  decide

end SlgProgrammer
